import Mathlib

set_option maxHeartbeats 2000000
set_option maxRecDepth 8000

/-!
Shallow embedding of the A-LEACH-WSN-Protocol simulators
(`abose_protocol.py`, `cs_abose_protocol.py`, `mrpgtco_protocol.py`,
`rlbeep_protocol.py`).

Modelling conventions, shared by all definitions below:

* Python floats are modelled as exact rationals (`ℚ`).
* Every geometric comparison and every radio-cost formula in the source
  uses a Euclidean distance only through its square (`dist**2`,
  `dist**4`) or through order comparisons of nonnegative distances.  We
  therefore carry SQUARED distances everywhere: `math.hypot(dx, dy)`
  becomes `dx^2 + dy^2`, the crossover guard `dist <= DO` becomes
  `dsq ≤ DO2` with `DO2 = E_FS / E_MP = DO**2`, `dist < DO * 2` becomes
  `dsq < 2^2 * DO2`, `dist < COMM_RADIUS` becomes
  `dsq < COMM_RADIUS^2`, and `bits * (E_ELEC + E_MP * dist**4)` becomes
  `bits * (E_ELEC + E_MP * dsq^2)`.  Since distances are nonnegative and
  squaring is strictly monotone on nonnegatives, this transformation
  preserves every branch, every comparison and every argmin/argmax.
* The two places where the source uses a non-squared distance as a raw
  VALUE (the `dist_from_center / max_dist` ratio inside
  `compute_cs_aware_threshold`, and `dist_to_bs` inside
  `calculate_reward` of the RLBEEP protocol) are modelled through an
  abstract square-root function `sqrtFn : ℚ → ℚ` taken as a parameter;
  every theorem below is universally quantified over `sqrtFn`, so no
  result depends on its values.
* The process-wide random stream (`random.random()`) is modelled as an
  explicit function `draws : ℕ → ℚ` together with a running index that
  advances by one for each `random.random()` call.  `random.choice(l)`
  (reachable only in RLBEEP's routing loop) is modelled as indexing by
  `⌊u * len⌋` for one fresh draw `u`; no theorem below depends on this
  choice because the routing-loop body is proved unreachable under the
  module's geometry.
* Python `Node` objects are mutable and aliased; we model the network
  state as a `List Node` and references to nodes as node ids (the
  sources create nodes with distinct ids `0..n-1`, and `==` on `Node`
  objects is identity).  The single `Node` structure below is the union
  of the nearly identical `Node` classes of the four files:
  `times_as_CH` appears only in `cs_abose_protocol.py` (initialised to 0
  and never touched afterwards) and `q_table` only in
  `rlbeep_protocol.py`; the other simulators never read or write those
  fields.
* `create_nodes` draws random positions, so the simulators are
  parametrised by the initial node list.
* The RLBEEP routing `while` loop has no bound in the source; it is
  embedded with an explicit `fuel` parameter and every theorem about it
  is universally quantified over the fuel.
-/

namespace WSN

/-- Electronics energy per bit: `E_ELEC = 50e-9` (identical constant block
at the top of all four protocol files). -/
def E_ELEC : ℚ := 50 / 10^9

/-- Aggregation energy per bit: `E_DA = 0.5e-9`. -/
def E_DA : ℚ := 5 / 10^10

/-- Free-space amplifier coefficient: `E_FS = 10e-12`. -/
def E_FS : ℚ := 10 / 10^12

/-- Multipath amplifier coefficient: `E_MP = 0.0013e-12`. -/
def E_MP : ℚ := 13 / 10^16

/-- Square of the crossover distance `DO = math.sqrt(E_FS / E_MP)`:
all guards of the source compare a nonnegative distance against `DO`
(or `DO * 2`), so only `DO**2 = E_FS / E_MP` is ever needed. -/
def DO2 : ℚ := E_FS / E_MP

/-- Packet size in bits: `PACKET_SIZE = 4000`. -/
def PACKET_SIZE : ℕ := 4000

/-- Initial per-node energy: `INITIAL_ENERGY = 0.5`. -/
def INITIAL_ENERGY : ℚ := 1/2

/-- Side of the square deployment area: `AREA_SIDE = 100.0`. -/
def AREA_SIDE : ℚ := 100

/-- Base-station position `BS_POS = (AREA_SIDE/2, AREA_SIDE/2)`
(shared by abose, cs_abose, mrpgtco and rlbeep). -/
def BS_POS : ℚ × ℚ := (AREA_SIDE / 2, AREA_SIDE / 2)

/-- Target cluster-head fraction `P_OPT = 0.05` of abose and cs_abose. -/
def P_OPT : ℚ := 1/20

/-- Union of the `Node` classes of the four protocol files (see the
module comment): id, position, residual energy, alive flag, head role,
current cluster assignment (id of the referenced head object),
`times_as_CH` (cs_abose only) and `q_table` (rlbeep only). -/
structure Node where
  id : ℕ
  x : ℚ
  y : ℚ
  energy : ℚ
  is_alive : Bool
  is_CH : Bool
  cluster : Option ℕ
  times_as_CH : ℕ
  q_table : List (ℕ × ℚ)
deriving Repr, DecidableEq

instance : Inhabited Node := ⟨⟨0, 0, 0, 0, false, false, none, 0, []⟩⟩

/-- Squared Euclidean distance between two nodes:
`math.hypot(a.x - b.x, a.y - b.y) ** 2`. -/
def distSq (a b : Node) : ℚ := (a.x - b.x)^2 + (a.y - b.y)^2

/-- Squared distance of a node to the base station. -/
def distSqBS (n : Node) : ℚ := (n.x - BS_POS.1)^2 + (n.y - BS_POS.2)^2

/-- Radio transmit cost `tx_energy(bits, dist)` of the source, expressed
over the squared distance `dsq = dist**2`:
`bits * (E_ELEC + E_FS * dist**2)` when `dist <= DO`, else
`bits * (E_ELEC + E_MP * dist**4)`. -/
def tx_energy (bits : ℕ) (dsq : ℚ) : ℚ :=
  if dsq ≤ DO2 then (bits : ℚ) * (E_ELEC + E_FS * dsq)
  else (bits : ℚ) * (E_ELEC + E_MP * dsq^2)

/-- Radio receive cost `rx_energy(bits) = bits * E_ELEC`. -/
def rx_energy (bits : ℕ) : ℚ := (bits : ℚ) * E_ELEC

/-- Look up the node object referenced by id `i` (Python holds a direct
object reference; ids are unique in every state the sources build).
Total with an inert default for absent ids. -/
def getN (s : List Node) (i : ℕ) : Node :=
  (s.find? (fun n => n.id == i)).getD default

/-- Mutate the node object with id `i` in place. -/
def modNode (s : List Node) (i : ℕ) (f : Node → Node) : List Node :=
  s.map (fun n => if n.id = i then f n else n)

/-- Deduct `e` joules from node `i`: `node.energy -= e`. -/
def chargeN (s : List Node) (i : ℕ) (e : ℚ) : List Node :=
  modNode s i (fun n => { n with energy := n.energy - e })

/-- The death check `if node.energy <= 0: node.is_alive = False`
applied to node `i`. -/
def killIfDead (s : List Node) (i : ℕ) : List Node :=
  if (getN s i).energy ≤ 0 then
    modNode s i (fun n => { n with is_alive := false })
  else s

/-- Ids of the round-start snapshot
`alive_nodes = [n for n in nodes if n.is_alive]`. -/
def aliveIdsOf (s : List Node) : List ℕ :=
  (s.filter (fun n => n.is_alive)).map (fun n => n.id)

/-- The per-round bookkeeping `sum(1 for n in nodes if n.is_alive)`. -/
def countAlive (s : List Node) : ℕ := s.countP (fun n => n.is_alive)

/-- The per-round bookkeeping
`sum(n.energy for n in nodes if n.is_alive)`. -/
def sumAliveEnergy (s : List Node) : ℚ :=
  ((s.filter (fun n => n.is_alive)).map (fun n => n.energy)).sum

/-- Python `max(ids, key=f)`: first element attaining the maximum
(subsequent elements replace the incumbent only on a strictly larger
key). -/
def maxKey (f : ℕ → ℚ) : List ℕ → ℕ
  | [] => 0
  | x :: xs => xs.foldl (fun b i => if f b < f i then i else b) x

/-- Python `min(ids, key=f)`: first element attaining the minimum. -/
def minKey (f : ℕ → ℚ) : List ℕ → ℕ
  | [] => 0
  | x :: xs => xs.foldl (fun b i => if f i < f b then i else b) x

/-- Python `max` of a nonempty list of numbers. -/
def listMax : List ℚ → ℚ
  | [] => 0
  | x :: xs => xs.foldl max x

/-- Python `min` of a nonempty list of numbers. -/
def listMin : List ℚ → ℚ
  | [] => 0
  | x :: xs => xs.foldl min x

/-- The `round` column `range(1, rounds + 1)` of the returned frames. -/
def roundsCol (rounds : ℕ) : List ℕ := List.range' 1 rounds

/-! ## abose_protocol.py -/

/-- `compute_threshold(node, round_num, alive_nodes, p=P_OPT)` of
`abose_protocol.py`.  The `try/except (ValueError, ZeroDivisionError)`
of the source catches exactly the two degenerate cases `int(1.0/Pi) = 0`
and a vanishing denominator, falling back to `Pi`; both guards are made
explicit here. -/
def compute_threshold (s : List Node) (nid : ℕ) (round_num : ℕ)
    (aliveIds : List ℕ) : ℚ :=
  if aliveIds = [] then 0
  else
    let E_total := (aliveIds.map (fun i => (getN s i).energy)).sum
    let E_avg := E_total / (aliveIds.length : ℚ)
    let Pi0 := if 0 < E_avg then P_OPT * ((getN s nid).energy / E_avg) else P_OPT
    let Pi := max (min Pi0 (1/2)) (1/1000)
    let m : ℕ := ((1 / Pi).floor).toNat
    if m = 0 then Pi
    else
      let denom := 1 - Pi * ((round_num % m : ℕ) : ℚ)
      if denom = 0 then Pi else Pi / denom

/-- One iteration of the abose election loop: clear the role, compute
the threshold, draw, and self-elect on `random.random() <= T`.
The accumulator is `(nodes, CHs, draw index)`. -/
def abose_electStep (draws : ℕ → ℚ) (round_num : ℕ) (aliveIds : List ℕ)
    (acc : List Node × List ℕ × ℕ) (i : ℕ) : List Node × List ℕ × ℕ :=
  let s := modNode acc.1 i (fun n => { n with is_CH := false })
  let T := compute_threshold s i round_num aliveIds
  if draws acc.2.2 ≤ T then
    (modNode s i (fun n => { n with is_CH := true }), acc.2.1 ++ [i], acc.2.2 + 1)
  else (s, acc.2.1, acc.2.2 + 1)

/-- The abose election loop over the alive snapshot. -/
def abose_electDraws (draws : ℕ → ℚ) (round_num : ℕ) (aliveIds : List ℕ)
    (s : List Node) (idx : ℕ) : List Node × List ℕ × ℕ :=
  aliveIds.foldl (abose_electStep draws round_num aliveIds) (s, [], idx)

/-- Election plus the fallback
`if not CHs and alive_nodes: best = max(alive_nodes, key=energy)`. -/
def abose_electPhase (draws : ℕ → ℚ) (round_num : ℕ) (aliveIds : List ℕ)
    (s : List Node) (idx : ℕ) : List Node × List ℕ × ℕ :=
  let r := abose_electDraws draws round_num aliveIds s idx
  if r.2.1 = [] ∧ aliveIds ≠ [] then
    let b := maxKey (fun i => (getN r.1 i).energy) aliveIds
    (modNode r.1 b (fun n => { n with is_CH := true }), [b], r.2.2)
  else r

/-- `node.cluster = min(CHs, key=dist)` for one non-head node. -/
def abose_assignStep (chs : List ℕ) (s : List Node) (i : ℕ) : List Node :=
  if ¬ (getN s i).is_CH ∧ chs ≠ [] then
    modNode s i (fun n =>
      { n with cluster := some (minKey (fun c => distSq (getN s i) (getN s c)) chs) })
  else s

/-- The abose cluster-assignment loop. -/
def abose_assignPhase (aliveIds chs : List ℕ) (s : List Node) : List Node :=
  aliveIds.foldl (abose_assignStep chs) s

/-- One iteration of the abose member-transmission loop: the member pays
the transmit cost, its head pays the receive cost, and the member (only)
is flagged dead if its energy crossed zero. -/
def abose_memberStep (s : List Node) (i : ℕ) : List Node :=
  let n := getN s i
  match n.cluster with
  | some h =>
    if ¬ n.is_CH then
      let s1 := chargeN s i (tx_energy PACKET_SIZE (distSq n (getN s h)))
      let s2 := chargeN s1 h (rx_energy PACKET_SIZE)
      killIfDead s2 i
    else s
  | none => s

/-- The abose member-transmission loop over the alive snapshot. -/
def abose_memberPhase (aliveIds : List ℕ) (s : List Node) : List Node :=
  aliveIds.foldl abose_memberStep s

/-- `members_count = sum(1 for n in alive_nodes if n.cluster == ch)`:
counted over the round-start snapshot, with the CURRENT cluster field
(no freshness or role check in the source). -/
def abose_memberCount (aliveIds : List ℕ) (s : List Node) (c : ℕ) : ℕ :=
  (aliveIds.filter (fun i => (getN s i).cluster = some c)).length

/-- One iteration of the abose head loop: aggregation cost, forward
transmission of `(members + 1)` packets to the base station, then the
head's death check. -/
def abose_chStep (aliveIds : List ℕ) (s : List Node) (c : ℕ) : List Node :=
  if (getN s c).is_alive then
    let members := abose_memberCount aliveIds s c
    let s1 := chargeN s c ((members * PACKET_SIZE : ℕ) * E_DA)
    let s2 := chargeN s1 c
      (tx_energy (PACKET_SIZE * (members + 1)) (distSqBS (getN s1 c)))
    killIfDead s2 c
  else s

/-- The abose head loop over the elected heads. -/
def abose_chPhase (aliveIds chs : List ℕ) (s : List Node) : List Node :=
  chs.foldl (abose_chStep aliveIds) s

/-- One round of `run_abose_simulation`: election, assignment, member
transmission, head aggregation/forwarding.  Returns the mutated state
and the advanced draw index. -/
def abose_round (draws : ℕ → ℚ) (round_num : ℕ) (s : List Node) (idx : ℕ) :
    List Node × ℕ :=
  let aliveIds := aliveIdsOf s
  let e := abose_electPhase draws round_num aliveIds s idx
  let s2 := abose_assignPhase aliveIds e.2.1 e.1
  let s3 := abose_memberPhase aliveIds s2
  let s4 := abose_chPhase aliveIds e.2.1 s3
  (s4, e.2.2)

/-- The abose round loop: append the round's alive count and residual
energy, break once the count reaches zero, and pad both series with
zeros up to the configured budget. -/
def abose_loop (draws : ℕ → ℚ) : ℕ → ℕ → List Node → ℕ → List ℕ × List ℚ
  | _, 0, _, _ => ([], [])
  | round_num, k + 1, s, idx =>
    let r := abose_round draws round_num s idx
    let c := countAlive r.1
    let e := sumAliveEnergy r.1
    if c = 0 then (c :: List.replicate k 0, e :: List.replicate k 0)
    else
      let rest := abose_loop draws (round_num + 1) k r.1 r.2
      (c :: rest.1, e :: rest.2)

/-- `run_abose_simulation(rounds)`, parametrised by the random stream and
the initial node population (built by `create_nodes` in the source).
Returns the `alive_nodes` and `residual_energy` series; the `round`
columns of the returned frames are `roundsCol rounds`. -/
def run_abose_simulation (draws : ℕ → ℚ) (nodes : List Node) (rounds : ℕ) :
    List ℕ × List ℚ :=
  abose_loop draws 1 rounds nodes 0

/-! ## cs_abose_protocol.py -/

/-- Compression ratio `CS_RATIO = 0.25` of `cs_abose_protocol.py`. -/
def CS_RATIO : ℚ := 1/4

/-- `BITS_PER_MEASUREMENT = 64`. -/
def BITS_PER_MEASUREMENT : ℕ := 64

/-- `compute_cs_aware_threshold(node, round_num, nodes, p=P_OPT,
w_energy=0.7, w_data=0.3)`.  The coverage factor is the one place this
file uses a raw (non-squared) distance, via `node.distance_to(BS_POS)`
and `math.hypot(AREA_SIDE/2, AREA_SIDE/2)`; both are expressed through
the abstract square root `sqrtFn` of their exactly-representable
squares. -/
def compute_cs_aware_threshold (sqrtFn : ℚ → ℚ) (s : List Node) (nid : ℕ)
    (round_num : ℕ) : ℚ :=
  let aliveIds := aliveIdsOf s
  if aliveIds = [] then 0
  else
    let E_total := (aliveIds.map (fun i => (getN s i).energy)).sum
    let E_avg := E_total / (aliveIds.length : ℚ)
    let energy_factor :=
      if 0 < E_avg then P_OPT * ((getN s nid).energy / E_avg) else P_OPT
    let dist_from_center := sqrtFn (distSqBS (getN s nid))
    let max_dist := sqrtFn ((AREA_SIDE/2)^2 + (AREA_SIDE/2)^2)
    let coverage_factor := (1 - dist_from_center / max_dist) * P_OPT * 2
    let Pi0 := (7/10) * energy_factor + (3/10) * coverage_factor
    let Pi := max (min Pi0 (1/2)) (1/1000)
    let m : ℕ := ((1 / Pi).floor).toNat
    if m = 0 then Pi
    else
      let denom := 1 - Pi * ((round_num % m : ℕ) : ℚ)
      if denom = 0 then Pi else Pi / denom

/-- One iteration of the cs_abose election loop: unlike abose it clears
BOTH the role and the cluster assignment of each alive node before the
draw. -/
def cs_electStep (draws : ℕ → ℚ) (sqrtFn : ℚ → ℚ) (round_num : ℕ)
    (acc : List Node × List ℕ × ℕ) (i : ℕ) : List Node × List ℕ × ℕ :=
  let s := modNode acc.1 i (fun n => { n with is_CH := false, cluster := none })
  let T := compute_cs_aware_threshold sqrtFn s i round_num
  if draws acc.2.2 ≤ T then
    (modNode s i (fun n => { n with is_CH := true }), acc.2.1 ++ [i], acc.2.2 + 1)
  else (s, acc.2.1, acc.2.2 + 1)

/-- The cs_abose election loop over the alive snapshot. -/
def cs_electDraws (draws : ℕ → ℚ) (sqrtFn : ℚ → ℚ) (round_num : ℕ)
    (aliveIds : List ℕ) (s : List Node) (idx : ℕ) : List Node × List ℕ × ℕ :=
  aliveIds.foldl (cs_electStep draws sqrtFn round_num) (s, [], idx)

/-- cs_abose election plus the highest-energy fallback. -/
def cs_electPhase (draws : ℕ → ℚ) (sqrtFn : ℚ → ℚ) (round_num : ℕ)
    (aliveIds : List ℕ) (s : List Node) (idx : ℕ) : List Node × List ℕ × ℕ :=
  let r := cs_electDraws draws sqrtFn round_num aliveIds s idx
  if r.2.1 = [] ∧ aliveIds ≠ [] then
    let b := maxKey (fun i => (getN r.1 i).energy) aliveIds
    (modNode r.1 b (fun n => { n with is_CH := true }), [b], r.2.2)
  else r

/-- One iteration of the cs_abose member loop: identical to abose except
that the transmission additionally requires the referenced head to be
alive (`node.cluster.is_alive`). -/
def cs_memberStep (s : List Node) (i : ℕ) : List Node :=
  let n := getN s i
  match n.cluster with
  | some h =>
    if ¬ n.is_CH ∧ (getN s h).is_alive then
      let s1 := chargeN s i (tx_energy PACKET_SIZE (distSq n (getN s h)))
      let s2 := chargeN s1 h (rx_energy PACKET_SIZE)
      killIfDead s2 i
    else s
  | none => s

/-- The cs_abose member-transmission loop. -/
def cs_memberPhase (aliveIds : List ℕ) (s : List Node) : List Node :=
  aliveIds.foldl cs_memberStep s

/-- Bits a cs_abose head forwards to the base station for a cluster of
`num_members` members: `n_components = int(num_members * CS_RATIO)`; if
that is zero (and the cluster is non-empty) the head falls back to the
uncompressed `num_members * PACKET_SIZE`, otherwise it sends
`n_components * BITS_PER_MEASUREMENT`. -/
def cs_total_bits (num_members : ℕ) : ℕ :=
  let n_components : ℕ := (((num_members : ℚ) * CS_RATIO).floor).toNat
  if n_components = 0 ∧ 0 < num_members then num_members * PACKET_SIZE
  else n_components * BITS_PER_MEASUREMENT

/-- One iteration of the cs_abose head loop: full aggregation cost for
all member packets, then transmission of the (possibly compressed)
payload, then the head's death check (which, unlike the charges, runs
even for empty clusters). -/
def cs_chStep (aliveIds : List ℕ) (s : List Node) (c : ℕ) : List Node :=
  if (getN s c).is_alive then
    let members := (aliveIds.filter (fun i => (getN s i).cluster = some c)).length
    let s1 :=
      if 0 < members then
        let sA := chargeN s c ((members * PACKET_SIZE : ℕ) * E_DA)
        chargeN sA c (tx_energy (cs_total_bits members) (distSqBS (getN sA c)))
      else s
    killIfDead s1 c
  else s

/-- The cs_abose head loop. -/
def cs_chPhase (aliveIds chs : List ℕ) (s : List Node) : List Node :=
  chs.foldl (cs_chStep aliveIds) s

/-- One round of `run_cs_abose_simulation`. -/
def cs_round (draws : ℕ → ℚ) (sqrtFn : ℚ → ℚ) (round_num : ℕ)
    (s : List Node) (idx : ℕ) : List Node × ℕ :=
  let aliveIds := aliveIdsOf s
  let e := cs_electPhase draws sqrtFn round_num aliveIds s idx
  let s2 := abose_assignPhase aliveIds e.2.1 e.1
  let s3 := cs_memberPhase aliveIds s2
  let s4 := cs_chPhase aliveIds e.2.1 s3
  (s4, e.2.2)

/-- The cs_abose round loop: it breaks at the TOP of a round when no
node is alive (`if not alive_nodes: break`) and pads both series with
zeros up to the configured budget. -/
def cs_loop (draws : ℕ → ℚ) (sqrtFn : ℚ → ℚ) :
    ℕ → ℕ → List Node → ℕ → List ℕ × List ℚ
  | _, 0, _, _ => ([], [])
  | round_num, k + 1, s, idx =>
    if aliveIdsOf s = [] then
      (List.replicate (k + 1) 0, List.replicate (k + 1) 0)
    else
      let r := cs_round draws sqrtFn round_num s idx
      let rest := cs_loop draws sqrtFn (round_num + 1) k r.1 r.2
      (countAlive r.1 :: rest.1, sumAliveEnergy r.1 :: rest.2)

/-- `run_cs_abose_simulation(rounds)`, parametrised by the random
stream, the abstract square root and the initial node population. -/
def run_cs_abose_simulation (draws : ℕ → ℚ) (sqrtFn : ℚ → ℚ)
    (nodes : List Node) (rounds : ℕ) : List ℕ × List ℚ :=
  cs_loop draws sqrtFn 1 rounds nodes 0

/-- Payload formula for the compressive head exactly as the
specification sentence states it:
`max(1, floor(members * compression_ratio)) * bits_per_measurement`.
Declared only to compare against `cs_total_bits`, which is translated
from the source. -/
def spec_payload_bits (num_members : ℕ) : ℕ :=
  max 1 ((((num_members : ℚ) * CS_RATIO).floor).toNat) * BITS_PER_MEASUREMENT

/-! ## mrpgtco_protocol.py -/

/-- Neighbor-discovery radius `COMM_RADIUS = 40` (compared against
squared distances as `COMM_RADIUS^2`). -/
def COMM_RADIUS : ℚ := 40

/-- Coverage radius `CH_COVERAGE_RADIUS = 45` for final head selection. -/
def CH_COVERAGE_RADIUS : ℚ := 45

/-- One iteration of the mrpgtco candidacy loop (Stage 1): a node with
no alive neighbor inside `COMM_RADIUS` is skipped without consuming a
draw; otherwise its candidacy probability is its energy position inside
the local neighborhood's `[er_min, er_max]` range (neutral denominator 1
when the range degenerates), decided by `random.random() < p_ch`. -/
def mrp_candStep (draws : ℕ → ℚ) (aliveIds : List ℕ) (s : List Node)
    (acc : List ℕ × ℕ) (i : ℕ) : List ℕ × ℕ :=
  let nbrs := aliveIds.filter
    (fun m => m ≠ i ∧ distSq (getN s i) (getN s m) < COMM_RADIUS^2)
  if nbrs = [] then acc
  else
    let es := nbrs.map (fun m => (getN s m).energy)
    let er_max := listMax es
    let er_min := listMin es
    let er_diff := if 0 < er_max - er_min then er_max - er_min else 1
    let p_ch := ((getN s i).energy - er_min) / er_diff
    if draws acc.2 < p_ch then (acc.1 ++ [i], acc.2 + 1) else (acc.1, acc.2 + 1)

/-- The mrpgtco Stage-1 candidacy loop (mutates no node state). -/
def mrp_candPhase (draws : ℕ → ℚ) (aliveIds : List ℕ) (s : List Node)
    (idx : ℕ) : List ℕ × ℕ :=
  aliveIds.foldl (mrp_candStep draws aliveIds s) ([], idx)

/-- Number of currently-uncovered nodes a candidate covers within
`CH_COVERAGE_RADIUS` (as the integer the source compares against the
`-1` sentinel). -/
def mrp_coverCount (s : List Node) (uncovered : List ℕ) (c : ℕ) : ℤ :=
  ((uncovered.filter
    (fun u => distSq (getN s u) (getN s c) ≤ CH_COVERAGE_RADIUS^2)).length : ℤ)

/-- One candidate of the Stage-2 inner search: replace the incumbent
only on strictly larger coverage. -/
def mrp_bestFold (s : List Node) (uncovered : List ℕ)
    (acc : Option ℕ × ℤ) (c : ℕ) : Option ℕ × ℤ :=
  if acc.2 < mrp_coverCount s uncovered c then (some c, mrp_coverCount s uncovered c)
  else acc

/-- The inner search of Stage 2: the candidate covering the most
currently-uncovered nodes, starting from `max_coverage = -1` so that the
first candidate always becomes the incumbent. -/
def mrp_pickBest (s : List Node) (cands uncovered : List ℕ) : Option ℕ :=
  (cands.foldl (mrp_bestFold s uncovered) ((none : Option ℕ), (-1 : ℤ))).1

/-- Stage 2 greedy set cover (`while uncovered_nodes and candidate_chs`):
promote the best candidate, delete it from the pool, delete everything
it covers from the uncovered set; stop when either list empties or no
candidate covers anything (`best_candidate` is `None`).  The loop
removes one candidate per iteration, so running it with
`fuel = candidates.length` reproduces the unbounded `while` exactly. -/
def mrp_greedyCover (s : List Node) :
    ℕ → List ℕ → List ℕ → List ℕ → List ℕ
  | 0, _, _, acc => acc
  | fuel + 1, unc, cands, acc =>
    if unc = [] ∨ cands = [] then acc
    else
      match mrp_pickBest s cands unc with
      | none => acc
      | some b =>
        mrp_greedyCover s fuel
          (unc.filter (fun u => CH_COVERAGE_RADIUS^2 < distSq (getN s u) (getN s b)))
          (cands.erase b) (acc ++ [b])

/-- Stages 1+2 with the highest-energy fallback
(`if not final_chs and alive_nodes`).  Returns
`(final_chs, candidate_chs, draw index)`. -/
def mrp_elect (draws : ℕ → ℚ) (aliveIds : List ℕ) (s : List Node)
    (idx : ℕ) : List ℕ × List ℕ × ℕ :=
  let c := mrp_candPhase draws aliveIds s idx
  let final0 := mrp_greedyCover s c.1.length aliveIds c.1 []
  let final :=
    if final0 = [] ∧ aliveIds ≠ [] then
      [maxKey (fun i => (getN s i).energy) aliveIds]
    else final0
  (final, c.1, c.2)

/-- `for ch in final_chs: ch.is_CH = True`. -/
def mrp_markCH (s : List Node) (final : List ℕ) : List Node :=
  final.foldl (fun t c => modNode t c (fun n => { n with is_CH := true })) s

/-- One iteration of the mrpgtco member loop.  The accumulator carries
the node state and `ch_data_load` (a `defaultdict(lambda: 1)`, so every
head starts with its own packet).  The member transmits only when its
energy strictly exceeds the cost (`if node.energy > tx_energy(...)`). -/
def mrp_memberStep (final : List ℕ) (acc : List Node × (ℕ → ℕ)) (i : ℕ) :
    List Node × (ℕ → ℕ) :=
  let s := acc.1
  let load := acc.2
  if ¬ (getN s i).is_CH ∧ final ≠ [] then
    let c := minKey (fun ch => distSq (getN s i) (getN s ch)) final
    let s := modNode s i (fun n => { n with cluster := some c })
    if (getN s c).is_alive then
      let cost := tx_energy PACKET_SIZE (distSq (getN s i) (getN s c))
      if cost < (getN s i).energy then
        (chargeN (chargeN s i cost) c (rx_energy PACKET_SIZE),
         fun j => if j = c then load c + 1 else load j)
      else (s, load)
    else (s, load)
  else (s, load)

/-- The mrpgtco member loop. -/
def mrp_memberPhase (final aliveIds : List ℕ) (s : List Node) :
    List Node × (ℕ → ℕ) :=
  aliveIds.foldl (mrp_memberStep final) (s, fun _ => 1)

/-- One iteration of the mrpgtco aggregation loop:
`num_packets_aggregated = ch_data_load[ch.id] - 1` member packets. -/
def mrp_aggStep (load : ℕ → ℕ) (s : List Node) (c : ℕ) : List Node :=
  if (getN s c).is_alive then
    let k := load c - 1
    if 0 < k then chargeN s c ((k * PACKET_SIZE : ℕ) * E_DA) else s
  else s

/-- The mrpgtco aggregation loop. -/
def mrp_aggPhase (load : ℕ → ℕ) (final : List ℕ) (s : List Node) : List Node :=
  final.foldl (mrp_aggStep load) s

/-- Stable insertion of `x` into a list sorted by decreasing key.  `x`
is the element earliest in the original order, so it is placed before
the first `y` whose key does not exceed `x`'s: elements with equal keys
keep their original order, as Python's stable sort does. -/
def insertDesc (key : ℕ → ℚ) (x : ℕ) : List ℕ → List ℕ
  | [] => [x]
  | y :: ys => if key y ≤ key x then x :: y :: ys else y :: insertDesc key x ys

/-- `sorted(final_chs, key=dist_to_bs, reverse=True)`: Python's sort is
stable, and the unique stable descending sort is reproduced here by a
stable insertion sort. -/
def sortDesc (key : ℕ → ℚ) : List ℕ → List ℕ
  | [] => []
  | x :: xs => insertDesc key x (sortDesc key xs)

/-- The relay search of the head `cId`: scan `final_chs`, skip the head
itself and dead heads, require the candidate to be strictly closer to
the base station than the direct distance and within `DO * 2` of the
head, and keep it only when its transmit cost strictly undercuts the
incumbent `min_cost` (initially the direct cost `costDirect`). -/
def mrp_relayFold (s : List Node) (cId : ℕ) (bits : ℕ) (dd : ℚ)
    (acc : Option ℕ × ℚ) (rId : ℕ) : Option ℕ × ℚ :=
  if rId = cId ∨ (getN s rId).is_alive = false then acc
  else
    if distSqBS (getN s rId) < dd ∧
       distSq (getN s cId) (getN s rId) < 2^2 * DO2 then
      if tx_energy bits (distSq (getN s cId) (getN s rId)) < acc.2 then
        (some rId, tx_energy bits (distSq (getN s cId) (getN s rId)))
      else acc
    else acc

def mrp_pickRelay (s : List Node) (chsList : List ℕ) (cId : ℕ) (bits : ℕ)
    (dd : ℚ) (costDirect : ℚ) : Option ℕ :=
  (chsList.foldl (mrp_relayFold s cId bits dd) ((none : Option ℕ), costDirect)).1

/-- One iteration of the mrpgtco forwarding loop: either ship the
payload to the chosen relay — which immediately pays the receive cost
plus its own direct transmit cost to the base station — or transmit
directly. -/
def mrp_relayStep (final : List ℕ) (load : ℕ → ℕ) (s : List Node) (c : ℕ) :
    List Node :=
  if (getN s c).is_alive then
    let bits := load c * PACKET_SIZE
    let dd := distSqBS (getN s c)
    let costDirect := tx_energy bits dd
    match mrp_pickRelay s final c bits dd costDirect with
    | some rId =>
      let s1 := chargeN s c (tx_energy bits (distSq (getN s c) (getN s rId)))
      let s2 := chargeN s1 rId (rx_energy bits)
      chargeN s2 rId (tx_energy bits (distSqBS (getN s2 rId)))
    | none => chargeN s c costDirect
  else s

/-- The mrpgtco forwarding loop over the heads sorted by decreasing
distance to the base station. -/
def mrp_relayPhase (final : List ℕ) (load : ℕ → ℕ) (s : List Node) :
    List Node :=
  (sortDesc (fun c => distSqBS (getN s c)) final).foldl (mrp_relayStep final load) s

/-- The end-of-round sweep
`for node in nodes: if node.energy <= 0: node.is_alive = False`. -/
def deathSweep (s : List Node) : List Node :=
  s.map (fun n => if n.energy ≤ 0 then { n with is_alive := false } else n)

/-- `for node in nodes: node.is_CH = False; node.cluster = None`
(round-start reset of mrpgtco and rlbeep, over ALL nodes). -/
def clearRoles (s : List Node) : List Node :=
  s.map (fun n => { n with is_CH := false, cluster := none })

/-- One round of `run_mrpgtco_simulation`. -/
def mrp_round (draws : ℕ → ℚ) (s : List Node) (idx : ℕ) : List Node × ℕ :=
  let aliveIds := aliveIdsOf s
  let s0 := clearRoles s
  let e := mrp_elect draws aliveIds s0 idx
  let s1 := mrp_markCH s0 e.1
  let m := mrp_memberPhase e.1 aliveIds s1
  let s2 := mrp_aggPhase m.2 e.1 m.1
  let s3 := mrp_relayPhase e.1 m.2 s2
  (deathSweep s3, e.2.2)

/-- The state of an mrpgtco round just before the end-of-round death
sweep: `mrp_round` is exactly `deathSweep` applied to this state. -/
def mrp_preSweep (draws : ℕ → ℚ) (s : List Node) (idx : ℕ) :
    List Node × ℕ :=
  let aliveIds := aliveIdsOf s
  let s0 := clearRoles s
  let e := mrp_elect draws aliveIds s0 idx
  let s1 := mrp_markCH s0 e.1
  let m := mrp_memberPhase e.1 aliveIds s1
  let s2 := mrp_aggPhase m.2 e.1 m.1
  (mrp_relayPhase e.1 m.2 s2, e.2.2)

/-- The mrpgtco round loop: top break when no node is alive, zero
padding of the alive series up to the budget (this protocol reports no
residual-energy series). -/
def mrp_loop (draws : ℕ → ℚ) : ℕ → List Node → ℕ → List ℕ
  | 0, _, _ => []
  | k + 1, s, idx =>
    if aliveIdsOf s = [] then List.replicate (k + 1) 0
    else
      let r := mrp_round draws s idx
      countAlive r.1 :: mrp_loop draws k r.1 r.2

/-- `run_mrpgtco_simulation(rounds)`, parametrised by the random stream
and the initial node population. -/
def run_mrpgtco_simulation (draws : ℕ → ℚ) (nodes : List Node)
    (rounds : ℕ) : List ℕ :=
  mrp_loop draws rounds nodes 0

/-! ## rlbeep_protocol.py -/

/-- `LEARNING_RATE = 0.5`. -/
def LEARNING_RATE : ℚ := 1/2

/-- `DISCOUNT_FACTOR = 0.5`. -/
def DISCOUNT_FACTOR : ℚ := 1/2

/-- Exploration probability `EPSILON = 0.2`. -/
def EPSILON : ℚ := 1/5

/-- rlbeep's head probability `P_OPT = 0.1` (this file shadows the
shared name with a higher value "for stability"). -/
def RL_P_OPT : ℚ := 1/10

/-- Sparse default-zero lookup `q_table.get(i, 0)` on a
`defaultdict(float)`. -/
def qGet (t : List (ℕ × ℚ)) (i : ℕ) : ℚ :=
  match t.find? (fun p => p.1 == i) with
  | some p => p.2
  | none => 0

/-- Assignment `q_table[i] = v` on a `defaultdict(float)`. -/
def qSet (t : List (ℕ × ℚ)) (i : ℕ) (v : ℚ) : List (ℕ × ℚ) :=
  if t.any (fun p => p.1 == i) then
    t.map (fun p => if p.1 = i then (i, v) else p)
  else t ++ [(i, v)]

/-- `random.choice(l)` modelled as indexing by `⌊u * len⌋` for one fresh
draw `u` (clamped; see the module comment — no theorem depends on
this). -/
def choice (l : List ℕ) (u : ℚ) : ℕ :=
  l.getD ((u * (l.length : ℚ)).floor).toNat 0

/-- `calculate_reward(neighbor_node)`: the neighbor's energy divided by
its (non-squared) distance to the base station plus `1e-6`; the raw
distance goes through the abstract `sqrtFn`. -/
def calculate_reward (sqrtFn : ℚ → ℚ) (n : Node) : ℚ :=
  n.energy / (sqrtFn (distSqBS n) + 1 / 10^6)

/-- Python `max(list or [0])` used for `max_q_next`. -/
def listMaxD (l : List ℚ) : ℚ :=
  match l with
  | [] => 0
  | x :: xs => xs.foldl max x

/-- The greedy next-hop selection: scan the alive head neighbors keeping
the first strictly-largest `q_table` value, starting from
`best_q = -inf` (modelled as `none`, which every value beats). -/
def rl_greedyPick (s : List Node) (cur : ℕ) (nbrs : List ℕ) : Option ℕ :=
  (nbrs.foldl (fun acc c =>
    let q := qGet (getN s cur).q_table c
    match acc.2 with
    | none => (some c, some q)
    | some bq => if bq < q then (some c, some q) else acc)
    ((none : Option ℕ), (none : Option ℚ))).1

/-- The rlbeep routing `while` loop
(`while current_ch.is_alive and dist(current, BS) > DO`), embedded with
explicit fuel since the source has no bound.  Each iteration: pick the
next hop (ε-greedy), charge the hop's transmit and receive costs, apply
the one-step temporal-difference update to the sender's `q_table`, and
move on.  Returns `(final current head, nodes, draw index)`. -/
def routeChain (draws : ℕ → ℚ) (sqrtFn : ℚ → ℚ) (chs : List ℕ) (bits : ℕ) :
    ℕ → ℕ → List Node → ℕ → ℕ × List Node × ℕ
  | 0, cur, s, idx => (cur, s, idx)
  | fuel + 1, cur, s, idx =>
    if (getN s cur).is_alive = true ∧ DO2 < distSqBS (getN s cur) then
      let nbrs := chs.filter (fun c => (getN s c).is_alive ∧ c ≠ cur)
      if nbrs = [] then (cur, s, idx)
      else
        let pick : ℕ × ℕ :=
          if draws idx < EPSILON then (choice nbrs (draws (idx + 1)), idx + 2)
          else
            match rl_greedyPick s cur nbrs with
            | some h => (h, idx + 1)
            | none => (choice nbrs (draws (idx + 1)), idx + 2)
        let nh := pick.1
        let s1 := chargeN s cur (tx_energy bits (distSq (getN s cur) (getN s nh)))
        let s2 := chargeN s1 nh (rx_energy bits)
        let reward := calculate_reward sqrtFn (getN s2 nh)
        let nbrs2 := nbrs.filter (fun c => c ≠ nh)
        let maxq := listMaxD (nbrs2.map (fun c => qGet (getN s2 nh).q_table c))
        let oldq := qGet (getN s2 cur).q_table nh
        let newq := oldq + LEARNING_RATE * (reward + DISCOUNT_FACTOR * maxq - oldq)
        let s3 := modNode s2 cur (fun n => { n with q_table := qSet n.q_table nh newq })
        routeChain draws sqrtFn chs bits fuel nh s3 pick.2
    else (cur, s, idx)

/-- One iteration of the rlbeep election loop
(`if random.random() < P_OPT`). -/
def rl_electStep (draws : ℕ → ℚ) (acc : List Node × List ℕ × ℕ) (i : ℕ) :
    List Node × List ℕ × ℕ :=
  if draws acc.2.2 < RL_P_OPT then
    (modNode acc.1 i (fun n => { n with is_CH := true }), acc.2.1 ++ [i], acc.2.2 + 1)
  else (acc.1, acc.2.1, acc.2.2 + 1)

/-- The rlbeep election loop plus the highest-energy fallback. -/
def rl_electPhase (draws : ℕ → ℚ) (aliveIds : List ℕ) (s : List Node)
    (idx : ℕ) : List Node × List ℕ × ℕ :=
  let r := aliveIds.foldl (rl_electStep draws) (s, [], idx)
  if r.2.1 = [] ∧ aliveIds ≠ [] then
    let b := maxKey (fun i => (getN r.1 i).energy) aliveIds
    (modNode r.1 b (fun n => { n with is_CH := true }), [b], r.2.2)
  else r

/-- One iteration of the rlbeep member loop: transmit to the assigned
alive head, bump `ch_data_load` (a `defaultdict(int)`), and — unlike
abose — perform NO death check here. -/
def rl_memberStep (acc : List Node × (ℕ → ℕ)) (i : ℕ) :
    List Node × (ℕ → ℕ) :=
  let s := acc.1
  let load := acc.2
  let n := getN s i
  match n.cluster with
  | some h =>
    if ¬ n.is_CH ∧ (getN s h).is_alive then
      let s1 := chargeN s i (tx_energy PACKET_SIZE (distSq n (getN s h)))
      let s2 := chargeN s1 h (rx_energy PACKET_SIZE)
      (s2, fun j => if j = h then load h + 1 else load j)
    else (s, load)
  | none => (s, load)

/-- The rlbeep member loop. -/
def rl_memberPhase (aliveIds : List ℕ) (s : List Node) :
    List Node × (ℕ → ℕ) :=
  aliveIds.foldl rl_memberStep (s, fun _ => 0)

/-- One iteration of the rlbeep routing loop over the heads: pay the
aggregation cost, walk the ε-greedy hop chain, and finally — if the head
where the chain stopped is alive — transmit the whole payload directly
to the base station from there. -/
def rl_chStep (draws : ℕ → ℚ) (sqrtFn : ℚ → ℚ) (chs : List ℕ)
    (load : ℕ → ℕ) (fuel : ℕ) (acc : List Node × ℕ) (c : ℕ) :
    List Node × ℕ :=
  let s := acc.1
  let idx := acc.2
  if (getN s c).is_alive then
    let total_bits := (load c + 1) * PACKET_SIZE
    let s1 := chargeN s c ((load c * PACKET_SIZE : ℕ) * E_DA)
    let r := routeChain draws sqrtFn chs total_bits fuel c s1 idx
    if (getN r.2.1 r.1).is_alive then
      (chargeN r.2.1 r.1 (tx_energy total_bits (distSqBS (getN r.2.1 r.1))), r.2.2)
    else (r.2.1, r.2.2)
  else acc

/-- The rlbeep head routing loop. -/
def rl_chPhase (draws : ℕ → ℚ) (sqrtFn : ℚ → ℚ) (chs : List ℕ)
    (load : ℕ → ℕ) (fuel : ℕ) (s : List Node) (idx : ℕ) :
    List Node × ℕ :=
  chs.foldl (rl_chStep draws sqrtFn chs load fuel) (s, idx)

/-- One round of `run_rlbeep_simulation` (the round counter is unused by
the body): reset, election, assignment, member transmission, RL routing,
end-of-round death sweep. -/
def rl_round (draws : ℕ → ℚ) (sqrtFn : ℚ → ℚ) (fuel : ℕ) (s : List Node)
    (idx : ℕ) : List Node × ℕ :=
  let aliveIds := aliveIdsOf s
  let s0 := clearRoles s
  let e := rl_electPhase draws aliveIds s0 idx
  let s1 := abose_assignPhase aliveIds e.2.1 e.1
  let m := rl_memberPhase aliveIds s1
  let r := rl_chPhase draws sqrtFn e.2.1 m.2 fuel m.1 e.2.2
  (deathSweep r.1, r.2)

/-- The state and draw index of the rlbeep round just before its
end-of-round death sweep (the same composite `rl_round` applies
`deathSweep` to). -/
def rl_preSweep (draws : ℕ → ℚ) (sqrtFn : ℚ → ℚ) (fuel : ℕ) (s : List Node)
    (idx : ℕ) : List Node × ℕ :=
  let aliveIds := aliveIdsOf s
  let s0 := clearRoles s
  let e := rl_electPhase draws aliveIds s0 idx
  let s1 := abose_assignPhase aliveIds e.2.1 e.1
  let m := rl_memberPhase aliveIds s1
  rl_chPhase draws sqrtFn e.2.1 m.2 fuel m.1 e.2.2

/-- The rlbeep round loop: top break when no node is alive, zero padding
of the alive series (this protocol reports no residual-energy series). -/
def rl_loop (draws : ℕ → ℚ) (sqrtFn : ℚ → ℚ) (fuel : ℕ) :
    ℕ → List Node → ℕ → List ℕ
  | 0, _, _ => []
  | k + 1, s, idx =>
    if aliveIdsOf s = [] then List.replicate (k + 1) 0
    else
      let r := rl_round draws sqrtFn fuel s idx
      countAlive r.1 :: rl_loop draws sqrtFn fuel k r.1 r.2

/-- `run_rlbeep_simulation(rounds)`, parametrised by the random stream,
the abstract square root, the fuel of the unbounded routing loop and the
initial node population. -/
def run_rlbeep_simulation (draws : ℕ → ℚ) (sqrtFn : ℚ → ℚ) (fuel : ℕ)
    (nodes : List Node) (rounds : ℕ) : List ℕ :=
  rl_loop draws sqrtFn fuel rounds nodes 0

/-- The node state and draw index reached after `k` iterations of the
rlbeep round loop (the same evolution `rl_loop` folds over; exposed so
that whole-run statements about the mutated population can be made). -/
def rl_iter (draws : ℕ → ℚ) (sqrtFn : ℚ → ℚ) (fuel : ℕ) :
    ℕ → List Node → ℕ → List Node × ℕ
  | 0, s, idx => (s, idx)
  | k + 1, s, idx =>
    if aliveIdsOf s = [] then (s, idx)
    else
      let r := rl_round draws sqrtFn fuel s idx
      rl_iter draws sqrtFn fuel k r.1 r.2

/-- Every node of the state lies in the deployment square `[0, 100]²`
(`create_nodes` places nodes by `random.uniform(0, AREA_SIDE)` twice;
the inert default node also satisfies this). -/
def InSquare (s : List Node) : Prop :=
  ∀ n ∈ s, 0 ≤ n.x ∧ n.x ≤ AREA_SIDE ∧ 0 ≤ n.y ∧ n.y ≤ AREA_SIDE

/-- Every node's learned value table is empty. -/
def QEmpty (s : List Node) : Prop := ∀ n ∈ s, n.q_table = []

instance (s : List Node) : Decidable (InSquare s) :=
  List.decidableBAll _ s

instance (s : List Node) : Decidable (QEmpty s) :=
  List.decidableBAll _ s

/-! ## Verification infrastructure -/

/-- Single-node evolution relation of every mutation the simulators
perform: the id and the position never change, and the alive flag is
never switched back on. -/
def NStep (n n' : Node) : Prop :=
  n'.id = n.id ∧ n'.x = n.x ∧ n'.y = n.y ∧
  (n'.is_alive = true → n.is_alive = true)

/-- Pointwise evolution of a network state under the simulators'
in-place mutation: same node objects in the same order, each evolved by
`NStep`. -/
def Evolves (s s' : List Node) : Prop := List.Forall₂ NStep s s'

/-- Whether a node object with id `i` exists in the state. -/
def hasId (s : List Node) (i : ℕ) : Bool :=
  (s.find? (fun n => n.id == i)).isSome

/-- The two states agree on every node's alive flag: holds between the
entry and exit of every phase that performs no death check. -/
def AliveEq (s s' : List Node) : Prop :=
  ∀ j : ℕ, (getN s' j).is_alive = (getN s j).is_alive

/-! Concrete configurations used by counterexamples and witnesses. -/

/-- Two-node abose configuration: a fresh member at `(46, 50)` and a
nearly depleted head at the base-station position `(50, 50)` (the state
of a head after sufficiently many served rounds). -/
def c1_nodes : List Node :=
  [⟨0, 46, 50, 1/2, true, false, none, 0, []⟩,
   ⟨1, 50, 50, 1/10000, true, false, none, 0, []⟩]

/-- Draws for the two-node abose round: node 0 rejects (0.9 above its
threshold), node 1 self-elects (draw 0). -/
def c1_draws : ℕ → ℚ := fun i => [(9 : ℚ)/10, 0].getD i 0

/-- Three collinear fresh abose nodes around the base station. -/
def c8_nodes : List Node :=
  [⟨0, 40, 50, 1/2, true, false, none, 0, []⟩,
   ⟨1, 50, 50, 1/2, true, false, none, 0, []⟩,
   ⟨2, 60, 50, 1/2, true, false, none, 0, []⟩]

/-- Draws for two abose rounds over `c8_nodes`: round 1 elects exactly
node 1, round 2 elects exactly nodes 0 and 1. -/
def c8_draws : ℕ → ℚ := fun i => [(1 : ℚ)/2, 0, 1/2, 0, 0, 1/2].getD i 0

/-- A single fresh alive node (used to exercise the fallback rules). -/
def ex1_nodes : List Node := [⟨0, 10, 10, 1/2, true, false, none, 0, []⟩]

/-- Two alive heads for the mrpgtco relay scenario: head 0 at `(0, 50)`
far from the base station, head 1 at `(10, 50)` on the way to it. -/
def c6_nodes : List Node :=
  [⟨0, 0, 50, 1/2, true, true, none, 0, []⟩,
   ⟨1, 10, 50, 1/2, true, true, none, 0, []⟩]

/-- A node entering a round with a stale head assignment (`cluster =
some 7`) and a stale role, for the reset witnesses. -/
def stale_nodes : List Node := [⟨0, 10, 10, 1/2, true, true, some 7, 0, []⟩]

/-- The cs_abose election output on `stale_nodes`. -/
def stale_elect : List Node :=
  (cs_electPhase (fun _ => 1) (fun q => q) 1 (aliveIdsOf stale_nodes)
    stale_nodes 0).1

/-- Two fresh in-square nodes for the rlbeep witnesses. -/
def rl_nodes : List Node :=
  [⟨0, 20, 20, 1/2, true, false, none, 0, []⟩,
   ⟨1, 80, 80, 1/2, true, false, none, 0, []⟩]

/-! ## Machinery lemmas -/

theorem nstep_rfl (n : Node) : NStep n n := ⟨rfl, rfl, rfl, fun h => h⟩

theorem nstep_trans {a b c : Node} (h1 : NStep a b) (h2 : NStep b c) :
    NStep a c :=
  ⟨h2.1.trans h1.1, h2.2.1.trans h1.2.1, h2.2.2.1.trans h1.2.2.1,
   fun h => h1.2.2.2 (h2.2.2.2 h)⟩

theorem evolves_rfl (s : List Node) : Evolves s s := by
  induction s with
  | nil => exact List.Forall₂.nil
  | cons n t ih => exact List.Forall₂.cons (nstep_rfl n) ih

theorem evolves_trans {s t u : List Node} (h1 : Evolves s t)
    (h2 : Evolves t u) : Evolves s u := by
  induction h1 generalizing u with
  | nil => cases h2; exact List.Forall₂.nil
  | cons hab h ih =>
    cases h2 with
    | cons hbc h' => exact List.Forall₂.cons (nstep_trans hab hbc) (ih h')

theorem evolves_map (g : Node → Node) (hg : ∀ n, NStep n (g n))
    (s : List Node) : Evolves s (s.map g) := by
  induction s with
  | nil => exact List.Forall₂.nil
  | cons n t ih => exact List.Forall₂.cons (hg n) ih

theorem evolves_modNode (f : Node → Node) (hf : ∀ n, NStep n (f n))
    (s : List Node) (i : ℕ) : Evolves s (modNode s i f) := by
  refine evolves_map _ (fun n => ?_) s
  by_cases h : n.id = i
  · simp only [h, if_pos rfl]; exact hf n
  · simp only [if_neg h]; exact nstep_rfl n

theorem foldl_pres {σ β : Type} (P : σ → Prop) (step : σ → β → σ)
    (h : ∀ a b, P a → P (step a b)) :
    ∀ (l : List β) (a : σ), P a → P (l.foldl step a) := by
  intro l
  induction l with
  | nil => intro a ha; exact ha
  | cons x xs ih => intro a ha; exact ih (step a x) (h a x ha)

theorem evolves_foldl {σ β : Type} (proj : σ → List Node)
    (step : σ → β → σ)
    (h : ∀ a b, Evolves (proj a) (proj (step a b))) :
    ∀ (l : List β) (a : σ), Evolves (proj a) (proj (l.foldl step a)) := by
  intro l
  induction l with
  | nil => intro a; exact evolves_rfl _
  | cons x xs ih =>
    intro a
    exact evolves_trans (h a x) (ih (step a x))

theorem evolves_countAlive {s s' : List Node} (h : Evolves s s') :
    countAlive s' ≤ countAlive s := by
  induction h with
  | nil => exact le_rfl
  | @cons a b l1 l2 hab hrest ih =>
    simp only [countAlive, List.countP_cons] at *
    rcases hab with ⟨-, -, -, hal⟩
    have e1 : (if b.is_alive = true then (1:ℕ) else 0) ≤
        (if a.is_alive = true then 1 else 0) := by
      by_cases hb : b.is_alive = true
      · simp [hb, hal hb]
      · simp [hb]
    omega

theorem evolves_mem_right {s s' : List Node} (h : Evolves s s') :
    ∀ n' ∈ s', ∃ n ∈ s, NStep n n' := by
  induction h with
  | nil => intro n' h'; cases h'
  | cons hab hrest ih =>
    intro n' h'
    rcases List.mem_cons.mp h' with h' | h'
    · subst h'; exact ⟨_, List.mem_cons_self _ _, hab⟩
    · rcases ih n' h' with ⟨n, hn, hs⟩
      exact ⟨n, List.mem_cons_of_mem _ hn, hs⟩

theorem getN_cons (n : Node) (t : List Node) (j : ℕ) :
    getN (n :: t) j = if n.id = j then n else getN t j := by
  by_cases h : n.id = j
  · simp [getN, List.find?_cons, h]
  · have hb : (n.id == j) = false := by simp [beq_iff_eq, h]
    simp [getN, List.find?_cons, hb, h]

theorem hasId_cons (n : Node) (t : List Node) (j : ℕ) :
    hasId (n :: t) j = (if n.id = j then true else hasId t j) := by
  by_cases h : n.id = j
  · simp [hasId, List.find?_cons, h]
  · have hb : (n.id == j) = false := by simp [beq_iff_eq, h]
    simp [hasId, List.find?_cons, hb, h]

theorem modNode_cons (n : Node) (t : List Node) (i : ℕ) (f : Node → Node) :
    modNode (n :: t) i f =
      (if n.id = i then f n else n) :: modNode t i f := by
  simp [modNode]

theorem getN_modNode (f : Node → Node) (hf : ∀ n, (f n).id = n.id)
    (s : List Node) (i j : ℕ) :
    getN (modNode s i f) j =
      if j = i then (if hasId s i then f (getN s i) else getN s i)
      else getN s j := by
  induction s with
  | nil =>
    simp only [modNode, List.map_nil]
    by_cases h : j = i <;> simp [h, hasId, getN, List.find?_nil]
  | cons n t ih =>
    rw [modNode_cons, getN_cons]
    by_cases hni : n.id = i
    · rw [if_pos hni, hf n]
      by_cases hj : j = i
      · subst hj
        simp [hni, getN_cons, hasId_cons]
      · have hnj : ¬ n.id = j := fun h => hj (h ▸ hni ▸ rfl)
        rw [if_neg (by rw [hni]; exact fun h => hj h.symm)]
        rw [ih]
        simp [hj, getN_cons, hnj]
    · rw [if_neg hni]
      by_cases hnj : n.id = j
      · have hj : ¬ j = i := fun h => hni (hnj.symm ▸ h ▸ rfl)
        simp [hnj, hj, getN_cons]
      · rw [if_neg hnj, ih]
        by_cases hj : j = i
        · subst hj
          simp [hasId_cons, hni, getN_cons, hnj]
        · simp [hj, getN_cons, hnj]

theorem hasId_of_alive {s : List Node} {i : ℕ}
    (h : (getN s i).is_alive = true) : hasId s i = true := by
  by_cases hp : hasId s i = true
  · exact hp
  · exfalso
    have hnone : s.find? (fun n => n.id == i) = none := by
      simp only [hasId] at hp
      cases hfind : s.find? (fun n => n.id == i) with
      | none => rfl
      | some v => rw [hfind] at hp; simp at hp
    rw [getN, hnone] at h
    simp [default] at h

theorem getN_id {s : List Node} {i : ℕ} (h : hasId s i = true) :
    (getN s i).id = i := by
  simp only [hasId] at h
  cases hfind : s.find? (fun n => n.id == i) with
  | none => rw [hfind] at h; simp at h
  | some n =>
    have := List.find?_some hfind
    simp only [beq_iff_eq] at this
    simp [getN, hfind, this]

theorem hasId_modNode (f : Node → Node) (hf : ∀ n, (f n).id = n.id)
    (s : List Node) (i j : ℕ) : hasId (modNode s i f) j = hasId s j := by
  induction s with
  | nil => rfl
  | cons n t ih =>
    rw [modNode_cons, hasId_cons, hasId_cons]
    by_cases hni : n.id = i
    · rw [if_pos hni, hf n]
      by_cases hnj : n.id = j
      · simp [hnj]
      · simp [hnj, ih]
    · rw [if_neg hni]
      by_cases hnj : n.id = j
      · simp [hnj]
      · simp [hnj, ih]

theorem countAlive_zero_iff (s : List Node) :
    countAlive s = 0 ↔ aliveIdsOf s = [] := by
  simp only [countAlive, aliveIdsOf, List.map_eq_nil_iff,
    List.countP_eq_zero, List.filter_eq_nil_iff]

theorem sumAliveEnergy_of_dead {s : List Node} (h : countAlive s = 0) :
    sumAliveEnergy s = 0 := by
  have hf : s.filter (fun n => n.is_alive) = [] := by
    simpa [countAlive, List.countP_eq_zero, List.filter_eq_nil_iff] using h
  simp [sumAliveEnergy, hf]

theorem getD_replicate {α : Type} (a : α) (k i : ℕ) :
    (List.replicate k a).getD i a = a := by
  induction k generalizing i with
  | zero => simp [List.getD]
  | succ k ih =>
    cases i with
    | zero => simp [List.replicate]
    | succ i => simp only [List.replicate, List.getD_cons_succ]; exact ih i

theorem getN_chargeN_self {s : List Node} {i : ℕ} (h : hasId s i = true)
    (e : ℚ) :
    getN (chargeN s i e) i =
      { getN s i with energy := (getN s i).energy - e } := by
  rw [chargeN,
    getN_modNode (fun n => { n with energy := n.energy - e }) (fun n => rfl),
    if_pos rfl, if_pos h]

theorem getN_chargeN_ne {s : List Node} {i j : ℕ} (h : j ≠ i) (e : ℚ) :
    getN (chargeN s i e) j = getN s j := by
  rw [chargeN,
    getN_modNode (fun n => { n with energy := n.energy - e }) (fun n => rfl),
    if_neg h]

theorem getN_killIfDead_ne {s : List Node} {i j : ℕ} (h : j ≠ i) :
    getN (killIfDead s i) j = getN s j := by
  rw [killIfDead]
  by_cases hk : (getN s i).energy ≤ 0
  · rw [if_pos hk,
      getN_modNode (fun n => { n with is_alive := false }) (fun n => rfl),
      if_neg h]
  · rw [if_neg hk]

theorem getN_killIfDead_self {s : List Node} {i : ℕ} (h : hasId s i = true) :
    getN (killIfDead s i) i =
      (if (getN s i).energy ≤ 0 then
        { getN s i with is_alive := false } else getN s i) := by
  rw [killIfDead]
  by_cases hk : (getN s i).energy ≤ 0
  · rw [if_pos hk, if_pos hk,
      getN_modNode (fun n => { n with is_alive := false }) (fun n => rfl),
      if_pos rfl, if_pos h]
  · rw [if_neg hk, if_neg hk]

theorem hasId_chargeN (s : List Node) (i j : ℕ) (e : ℚ) :
    hasId (chargeN s i e) j = hasId s j :=
  hasId_modNode (fun n => { n with energy := n.energy - e }) (fun n => rfl) s i j

theorem maxKey_aux (f : ℕ → ℚ) :
    ∀ (xs : List ℕ) (b : ℕ),
      (xs.foldl (fun b i => if f b < f i then i else b) b) ∈ b :: xs ∧
      (∀ i ∈ b :: xs, f i ≤ f (xs.foldl (fun b i => if f b < f i then i else b) b)) := by
  intro xs
  induction xs with
  | nil => intro b; exact ⟨List.mem_singleton.mpr rfl, by simp⟩
  | cons x t ih =>
    intro b
    simp only [List.foldl_cons]
    by_cases hc : f b < f x
    · simp only [if_pos hc]
      rcases ih x with ⟨hmem, hmax⟩
      constructor
      · rcases List.mem_cons.mp hmem with h | h
        · rw [h]; exact List.mem_cons_of_mem _ (List.mem_cons_self _ _)
        · exact List.mem_cons_of_mem _ (List.mem_cons_of_mem _ h)
      · intro i hi
        rcases List.mem_cons.mp hi with h | h
        · subst h
          exact le_trans (le_of_lt hc) (hmax x (List.mem_cons_self _ _))
        · rcases List.mem_cons.mp h with h | h
          · subst h; exact hmax i (List.mem_cons_self _ _)
          · exact hmax i (List.mem_cons_of_mem _ h)
    · simp only [if_neg hc]
      rcases ih b with ⟨hmem, hmax⟩
      constructor
      · rcases List.mem_cons.mp hmem with h | h
        · rw [h]; exact List.mem_cons_self _ _
        · exact List.mem_cons_of_mem _ (List.mem_cons_of_mem _ h)
      · intro i hi
        rcases List.mem_cons.mp hi with h | h
        · subst h; exact hmax i (List.mem_cons_self _ _)
        · rcases List.mem_cons.mp h with h | h
          · subst h
            exact le_trans (le_of_not_lt hc) (hmax b (List.mem_cons_self _ _))
          · exact hmax i (List.mem_cons_of_mem _ h)

theorem maxKey_mem (f : ℕ → ℚ) {l : List ℕ} (h : l ≠ []) :
    maxKey f l ∈ l := by
  cases l with
  | nil => exact absurd rfl h
  | cons x xs => exact (maxKey_aux f xs x).1

theorem le_maxKey (f : ℕ → ℚ) {l : List ℕ} :
    ∀ i ∈ l, f i ≤ f (maxKey f l) := by
  cases l with
  | nil => intro i hi; cases hi
  | cons x xs => exact (maxKey_aux f xs x).2

theorem evolves_chargeN (s : List Node) (i : ℕ) (e : ℚ) :
    Evolves s (chargeN s i e) :=
  evolves_modNode (fun n => { n with energy := n.energy - e })
    (fun n => ⟨rfl, rfl, rfl, fun h => h⟩) s i

theorem evolves_killIfDead (s : List Node) (i : ℕ) :
    Evolves s (killIfDead s i) := by
  rw [killIfDead]
  by_cases hk : (getN s i).energy ≤ 0
  · rw [if_pos hk]
    exact evolves_modNode (fun n => { n with is_alive := false })
      (fun n => ⟨rfl, rfl, rfl, fun h => nomatch h⟩) s i
  · rw [if_neg hk]; exact evolves_rfl s

theorem evolves_setCH (s : List Node) (i : ℕ) (b : Bool) :
    Evolves s (modNode s i (fun n => { n with is_CH := b })) :=
  evolves_modNode (fun n => { n with is_CH := b })
    (fun n => ⟨rfl, rfl, rfl, fun h => h⟩) s i

theorem evolves_abose_electStep (draws : ℕ → ℚ) (round_num : ℕ)
    (aliveIds : List ℕ) (acc : List Node × List ℕ × ℕ) (i : ℕ) :
    Evolves acc.1 (abose_electStep draws round_num aliveIds acc i).1 := by
  rw [abose_electStep]
  by_cases h : draws acc.2.2 ≤
      compute_threshold (modNode acc.1 i (fun n => { n with is_CH := false }))
        i round_num aliveIds
  · simp only [if_pos h]
    exact evolves_trans (evolves_setCH acc.1 i false) (evolves_setCH _ i true)
  · simp only [if_neg h]
    exact evolves_setCH acc.1 i false

theorem evolves_abose_electPhase (draws : ℕ → ℚ) (round_num : ℕ)
    (aliveIds : List ℕ) (s : List Node) (idx : ℕ) :
    Evolves s (abose_electPhase draws round_num aliveIds s idx).1 := by
  rw [abose_electPhase]
  have hd : Evolves s (abose_electDraws draws round_num aliveIds s idx).1 := by
    rw [abose_electDraws]
    exact evolves_foldl Prod.fst _
      (evolves_abose_electStep draws round_num aliveIds) aliveIds (s, [], idx)
  by_cases h : (abose_electDraws draws round_num aliveIds s idx).2.1 = [] ∧
      aliveIds ≠ []
  · simp only [if_pos h]
    exact evolves_trans hd (evolves_setCH _ _ true)
  · simp only [if_neg h]; exact hd

theorem evolves_abose_assignStep (chs : List ℕ) (s : List Node) (i : ℕ) :
    Evolves s (abose_assignStep chs s i) := by
  rw [abose_assignStep]
  by_cases h : ¬ (getN s i).is_CH = true ∧ chs ≠ []
  · simp only [if_pos h]
    exact evolves_modNode
      (fun n => { n with
        cluster := some (minKey (fun c => distSq (getN s i) (getN s c)) chs) })
      (fun n => ⟨rfl, rfl, rfl, fun h => h⟩) s i
  · simp only [if_neg h]; exact evolves_rfl s

theorem evolves_abose_assignPhase (aliveIds chs : List ℕ) (s : List Node) :
    Evolves s (abose_assignPhase aliveIds chs s) :=
  evolves_foldl id _ (fun a b => evolves_abose_assignStep chs a b) aliveIds s

theorem evolves_abose_memberStep (s : List Node) (i : ℕ) :
    Evolves s (abose_memberStep s i) := by
  rw [abose_memberStep]
  cases hcl : (getN s i).cluster with
  | none => exact evolves_rfl s
  | some h =>
    by_cases hch : ¬ (getN s i).is_CH = true
    · simp only [if_pos hch]
      exact evolves_trans (evolves_chargeN _ _ _)
        (evolves_trans (evolves_chargeN _ _ _) (evolves_killIfDead _ _))
    · simp only [if_neg hch]; exact evolves_rfl s

theorem evolves_abose_memberPhase (aliveIds : List ℕ) (s : List Node) :
    Evolves s (abose_memberPhase aliveIds s) :=
  evolves_foldl id _ (fun a b => evolves_abose_memberStep a b) aliveIds s

theorem evolves_abose_chStep (aliveIds : List ℕ) (s : List Node) (c : ℕ) :
    Evolves s (abose_chStep aliveIds s c) := by
  rw [abose_chStep]
  by_cases h : (getN s c).is_alive = true
  · simp only [if_pos h]
    exact evolves_trans (evolves_chargeN _ _ _)
      (evolves_trans (evolves_chargeN _ _ _) (evolves_killIfDead _ _))
  · simp only [if_neg h]; exact evolves_rfl s

theorem evolves_abose_chPhase (aliveIds chs : List ℕ) (s : List Node) :
    Evolves s (abose_chPhase aliveIds chs s) :=
  evolves_foldl id _ (fun a b => evolves_abose_chStep aliveIds a b) chs s

theorem evolves_abose_round (draws : ℕ → ℚ) (round_num : ℕ)
    (s : List Node) (idx : ℕ) :
    Evolves s (abose_round draws round_num s idx).1 := by
  rw [abose_round]
  exact evolves_trans (evolves_abose_electPhase draws round_num _ s idx)
    (evolves_trans (evolves_abose_assignPhase _ _ _)
      (evolves_trans (evolves_abose_memberPhase _ _)
        (evolves_abose_chPhase _ _ _)))

theorem evolves_cs_electStep (draws : ℕ → ℚ) (sqrtFn : ℚ → ℚ)
    (round_num : ℕ) (acc : List Node × List ℕ × ℕ) (i : ℕ) :
    Evolves acc.1 (cs_electStep draws sqrtFn round_num acc i).1 := by
  rw [cs_electStep]
  have h0 : Evolves acc.1
      (modNode acc.1 i (fun n => { n with is_CH := false, cluster := none })) :=
    evolves_modNode (fun n => { n with is_CH := false, cluster := none })
      (fun n => ⟨rfl, rfl, rfl, fun h => h⟩) acc.1 i
  by_cases h : draws acc.2.2 ≤
      compute_cs_aware_threshold sqrtFn
        (modNode acc.1 i (fun n => { n with is_CH := false, cluster := none }))
        i round_num
  · simp only [if_pos h]
    exact evolves_trans h0 (evolves_setCH _ i true)
  · simp only [if_neg h]
    exact h0

theorem evolves_cs_electPhase (draws : ℕ → ℚ) (sqrtFn : ℚ → ℚ)
    (round_num : ℕ) (aliveIds : List ℕ) (s : List Node) (idx : ℕ) :
    Evolves s (cs_electPhase draws sqrtFn round_num aliveIds s idx).1 := by
  rw [cs_electPhase]
  have hd : Evolves s (cs_electDraws draws sqrtFn round_num aliveIds s idx).1 := by
    rw [cs_electDraws]
    exact evolves_foldl Prod.fst _
      (evolves_cs_electStep draws sqrtFn round_num) aliveIds (s, [], idx)
  by_cases h : (cs_electDraws draws sqrtFn round_num aliveIds s idx).2.1 = [] ∧
      aliveIds ≠ []
  · simp only [if_pos h]
    exact evolves_trans hd (evolves_setCH _ _ true)
  · simp only [if_neg h]; exact hd

theorem evolves_cs_memberStep (s : List Node) (i : ℕ) :
    Evolves s (cs_memberStep s i) := by
  rw [cs_memberStep]
  cases hcl : (getN s i).cluster with
  | none => exact evolves_rfl s
  | some h =>
    by_cases hch : ¬ (getN s i).is_CH = true ∧ (getN s h).is_alive = true
    · simp only [if_pos hch]
      exact evolves_trans (evolves_chargeN _ _ _)
        (evolves_trans (evolves_chargeN _ _ _) (evolves_killIfDead _ _))
    · simp only [if_neg hch]; exact evolves_rfl s

theorem evolves_cs_memberPhase (aliveIds : List ℕ) (s : List Node) :
    Evolves s (cs_memberPhase aliveIds s) :=
  evolves_foldl id _ (fun a b => evolves_cs_memberStep a b) aliveIds s

theorem evolves_cs_chStep (aliveIds : List ℕ) (s : List Node) (c : ℕ) :
    Evolves s (cs_chStep aliveIds s c) := by
  rw [cs_chStep]
  by_cases h : (getN s c).is_alive = true
  · simp only [if_pos h]
    by_cases hm : 0 <
        (aliveIds.filter (fun i => (getN s i).cluster = some c)).length
    · simp only [if_pos hm]
      exact evolves_trans (evolves_chargeN _ _ _)
        (evolves_trans (evolves_chargeN _ _ _) (evolves_killIfDead _ _))
    · simp only [if_neg hm]
      exact evolves_killIfDead _ _
  · simp only [if_neg h]; exact evolves_rfl s

theorem evolves_cs_chPhase (aliveIds chs : List ℕ) (s : List Node) :
    Evolves s (cs_chPhase aliveIds chs s) :=
  evolves_foldl id _ (fun a b => evolves_cs_chStep aliveIds a b) chs s

theorem evolves_cs_round (draws : ℕ → ℚ) (sqrtFn : ℚ → ℚ) (round_num : ℕ)
    (s : List Node) (idx : ℕ) :
    Evolves s (cs_round draws sqrtFn round_num s idx).1 := by
  rw [cs_round]
  exact evolves_trans (evolves_cs_electPhase draws sqrtFn round_num _ s idx)
    (evolves_trans (evolves_abose_assignPhase _ _ _)
      (evolves_trans (evolves_cs_memberPhase _ _)
        (evolves_cs_chPhase _ _ _)))

theorem evolves_clearRoles (s : List Node) : Evolves s (clearRoles s) :=
  evolves_map (fun n => { n with is_CH := false, cluster := none })
    (fun n => ⟨rfl, rfl, rfl, fun h => h⟩) s

theorem evolves_deathSweep (s : List Node) : Evolves s (deathSweep s) := by
  refine evolves_map _ (fun n => ?_) s
  by_cases h : n.energy ≤ 0
  · simp only [if_pos h]
    exact ⟨rfl, rfl, rfl, fun h => nomatch h⟩
  · simp only [if_neg h]
    exact nstep_rfl n

theorem evolves_rl_electStep (draws : ℕ → ℚ)
    (acc : List Node × List ℕ × ℕ) (i : ℕ) :
    Evolves acc.1 (rl_electStep draws acc i).1 := by
  rw [rl_electStep]
  by_cases h : draws acc.2.2 < RL_P_OPT
  · simp only [if_pos h]
    exact evolves_setCH _ i true
  · simp only [if_neg h]
    exact evolves_rfl _

theorem evolves_rl_electPhase (draws : ℕ → ℚ) (aliveIds : List ℕ)
    (s : List Node) (idx : ℕ) :
    Evolves s (rl_electPhase draws aliveIds s idx).1 := by
  rw [rl_electPhase]
  have hd : Evolves s (aliveIds.foldl (rl_electStep draws) (s, [], idx)).1 :=
    evolves_foldl Prod.fst _ (evolves_rl_electStep draws) aliveIds (s, [], idx)
  by_cases h : (aliveIds.foldl (rl_electStep draws) (s, [], idx)).2.1 = [] ∧
      aliveIds ≠ []
  · simp only [if_pos h]
    exact evolves_trans hd (evolves_setCH _ _ true)
  · simp only [if_neg h]; exact hd

theorem evolves_rl_memberStep (acc : List Node × (ℕ → ℕ)) (i : ℕ) :
    Evolves acc.1 (rl_memberStep acc i).1 := by
  rw [rl_memberStep]
  cases hcl : (getN acc.1 i).cluster with
  | none => exact evolves_rfl _
  | some h =>
    by_cases hch : ¬ (getN acc.1 i).is_CH = true ∧ (getN acc.1 h).is_alive = true
    · simp only [if_pos hch]
      exact evolves_trans (evolves_chargeN _ _ _) (evolves_chargeN _ _ _)
    · simp only [if_neg hch]; exact evolves_rfl _

theorem evolves_rl_memberPhase (aliveIds : List ℕ) (s : List Node) :
    Evolves s (rl_memberPhase aliveIds s).1 :=
  evolves_foldl Prod.fst _ (fun a b => evolves_rl_memberStep a b) aliveIds
    (s, fun _ => 0)

theorem evolves_modQ (s : List Node) (i : ℕ) (g : Node → List (ℕ × ℚ)) :
    Evolves s (modNode s i (fun n => { n with q_table := g n })) :=
  evolves_modNode (fun n => { n with q_table := g n })
    (fun n => ⟨rfl, rfl, rfl, fun h => h⟩) s i

theorem evolves_routeChain (draws : ℕ → ℚ) (sqrtFn : ℚ → ℚ) (chs : List ℕ)
    (bits : ℕ) :
    ∀ (fuel cur : ℕ) (s : List Node) (idx : ℕ),
      Evolves s (routeChain draws sqrtFn chs bits fuel cur s idx).2.1 := by
  intro fuel
  induction fuel with
  | zero => intro cur s idx; exact evolves_rfl s
  | succ fuel ih =>
    intro cur s idx
    rw [routeChain]
    by_cases hg : (getN s cur).is_alive = true ∧ DO2 < distSqBS (getN s cur)
    · simp only [if_pos hg]
      by_cases hn : chs.filter (fun c => (getN s c).is_alive ∧ c ≠ cur) = []
      · simp only [if_pos hn]; exact evolves_rfl s
      · simp only [if_neg hn]
        refine evolves_trans ?_ (ih _ _ _)
        refine evolves_trans ?_ (evolves_modQ _ _ _)
        refine evolves_trans ?_ (evolves_chargeN _ _ _)
        exact evolves_chargeN _ _ _
    · simp only [if_neg hg]; exact evolves_rfl s

theorem evolves_rl_chStep (draws : ℕ → ℚ) (sqrtFn : ℚ → ℚ) (chs : List ℕ)
    (load : ℕ → ℕ) (fuel : ℕ) (acc : List Node × ℕ) (c : ℕ) :
    Evolves acc.1 (rl_chStep draws sqrtFn chs load fuel acc c).1 := by
  rw [rl_chStep]
  by_cases h : (getN acc.1 c).is_alive = true
  · simp only [if_pos h]
    have h1 := evolves_chargeN acc.1 c ((load c * PACKET_SIZE : ℕ) * E_DA)
    have h2 := evolves_routeChain draws sqrtFn chs ((load c + 1) * PACKET_SIZE)
      fuel c (chargeN acc.1 c ((load c * PACKET_SIZE : ℕ) * E_DA)) acc.2
    by_cases hz : (getN (routeChain draws sqrtFn chs ((load c + 1) * PACKET_SIZE)
        fuel c (chargeN acc.1 c ((load c * PACKET_SIZE : ℕ) * E_DA)) acc.2).2.1
        (routeChain draws sqrtFn chs ((load c + 1) * PACKET_SIZE)
        fuel c (chargeN acc.1 c ((load c * PACKET_SIZE : ℕ) * E_DA)) acc.2).1).is_alive
        = true
    · simp only [if_pos hz]
      exact evolves_trans h1 (evolves_trans h2 (evolves_chargeN _ _ _))
    · simp only [if_neg hz]
      exact evolves_trans h1 h2
  · simp only [if_neg h]; exact evolves_rfl _

theorem evolves_rl_chPhase (draws : ℕ → ℚ) (sqrtFn : ℚ → ℚ) (chs : List ℕ)
    (load : ℕ → ℕ) (fuel : ℕ) (s : List Node) (idx : ℕ) :
    Evolves s (rl_chPhase draws sqrtFn chs load fuel s idx).1 :=
  evolves_foldl Prod.fst _
    (fun a b => evolves_rl_chStep draws sqrtFn chs load fuel a b) chs (s, idx)

theorem evolves_rl_round (draws : ℕ → ℚ) (sqrtFn : ℚ → ℚ) (fuel : ℕ)
    (s : List Node) (idx : ℕ) :
    Evolves s (rl_round draws sqrtFn fuel s idx).1 := by
  rw [rl_round]
  refine evolves_trans ?_ (evolves_deathSweep _)
  refine evolves_trans ?_ (evolves_rl_chPhase _ _ _ _ _ _ _)
  refine evolves_trans ?_ (evolves_rl_memberPhase _ _)
  refine evolves_trans ?_ (evolves_abose_assignPhase _ _ _)
  exact evolves_trans (evolves_clearRoles s) (evolves_rl_electPhase _ _ _ _)

theorem chain_replicate_zero :
    ∀ k : ℕ, List.Chain (fun a b : ℕ => b ≤ a) 0 (List.replicate k 0) := by
  intro k
  induction k with
  | zero => exact List.Chain.nil
  | succ k ih => exact List.Chain.cons le_rfl ih

theorem chain_le_getD {l : List ℕ} {c : ℕ}
    (h : List.Chain (fun a b => b ≤ a) c l) :
    ∀ i, l.getD (i + 1) 0 ≤ l.getD i 0 := by
  induction l generalizing c with
  | nil => intro i; simp [List.getD]
  | cons a t ih =>
    rcases List.chain_cons.mp h with ⟨-, ht⟩
    intro i
    cases i with
    | zero =>
      cases t with
      | nil => simp [List.getD]
      | cons b t' =>
        rcases List.chain_cons.mp ht with ⟨hba, -⟩
        simpa [List.getD] using hba
    | succ i => simpa [List.getD] using ih ht i

theorem getD_antitone {l : List ℕ}
    (h : ∀ i, l.getD (i + 1) 0 ≤ l.getD i 0) :
    ∀ i j, i ≤ j → l.getD j 0 ≤ l.getD i 0 := by
  have key : ∀ d i, l.getD (i + d) 0 ≤ l.getD i 0 := by
    intro d
    induction d with
    | zero => intro i; exact le_rfl
    | succ d ih =>
      intro i
      calc l.getD (i + (d + 1)) 0 = l.getD ((i + d) + 1) 0 := by ring_nf
        _ ≤ l.getD (i + d) 0 := h (i + d)
        _ ≤ l.getD i 0 := ih i
  intro i j hij
  have : j = i + (j - i) := by omega
  rw [this]
  exact key (j - i) i

theorem abose_loop_length (draws : ℕ → ℚ) :
    ∀ (k r : ℕ) (s : List Node) (idx : ℕ),
      (abose_loop draws r k s idx).1.length = k ∧
      (abose_loop draws r k s idx).2.length = k := by
  intro k
  induction k with
  | zero => intro r s idx; exact ⟨rfl, rfl⟩
  | succ k ih =>
    intro r s idx
    by_cases hc : countAlive (abose_round draws r s idx).1 = 0
    · simp [abose_loop, hc]
    · have := ih (r + 1) (abose_round draws r s idx).1 (abose_round draws r s idx).2
      simp [abose_loop, hc, this.1, this.2]

theorem abose_loop_chain (draws : ℕ → ℚ) :
    ∀ (k r : ℕ) (s : List Node) (idx : ℕ),
      List.Chain (fun a b => b ≤ a) (countAlive s)
        (abose_loop draws r k s idx).1 := by
  intro k
  induction k with
  | zero => intro r s idx; exact List.Chain.nil
  | succ k ih =>
    intro r s idx
    have hle : countAlive (abose_round draws r s idx).1 ≤ countAlive s :=
      evolves_countAlive (evolves_abose_round draws r s idx)
    by_cases hc : countAlive (abose_round draws r s idx).1 = 0
    · simp only [abose_loop, hc, if_pos]
      exact List.Chain.cons (Nat.zero_le _) (chain_replicate_zero k)
    · simp only [abose_loop, hc, if_neg, ite_false]
      exact List.Chain.cons hle
        (ih (r + 1) (abose_round draws r s idx).1 (abose_round draws r s idx).2)

theorem abose_loop_energy_zero (draws : ℕ → ℚ) :
    ∀ (k r : ℕ) (s : List Node) (idx i : ℕ),
      (abose_loop draws r k s idx).1.getD i 0 = 0 →
      (abose_loop draws r k s idx).2.getD i 0 = 0 := by
  intro k
  induction k with
  | zero => intro r s idx i _; simp [abose_loop, List.getD]
  | succ k ih =>
    intro r s idx i
    by_cases hc : countAlive (abose_round draws r s idx).1 = 0
    · simp only [abose_loop, hc, if_pos]
      cases i with
      | zero =>
        intro _
        simpa [List.getD] using sumAliveEnergy_of_dead hc
      | succ i =>
        intro _
        simpa [List.getD] using getD_replicate (0 : ℚ) k i
    · simp only [abose_loop, hc, if_neg, ite_false]
      cases i with
      | zero =>
        intro h0
        exact absurd (by simpa [List.getD] using h0) hc
      | succ i =>
        intro h0
        have := ih (r + 1) (abose_round draws r s idx).1
          (abose_round draws r s idx).2 i (by simpa [List.getD] using h0)
        simpa [List.getD] using this

theorem cs_loop_length (draws : ℕ → ℚ) (sqrtFn : ℚ → ℚ) :
    ∀ (k r : ℕ) (s : List Node) (idx : ℕ),
      (cs_loop draws sqrtFn r k s idx).1.length = k ∧
      (cs_loop draws sqrtFn r k s idx).2.length = k := by
  intro k
  induction k with
  | zero => intro r s idx; exact ⟨rfl, rfl⟩
  | succ k ih =>
    intro r s idx
    by_cases ha : aliveIdsOf s = []
    · simp [cs_loop, ha]
    · have := ih (r + 1) (cs_round draws sqrtFn r s idx).1
        (cs_round draws sqrtFn r s idx).2
      simp [cs_loop, ha, this.1, this.2]

theorem cs_loop_chain (draws : ℕ → ℚ) (sqrtFn : ℚ → ℚ) :
    ∀ (k r : ℕ) (s : List Node) (idx : ℕ),
      List.Chain (fun a b => b ≤ a) (countAlive s)
        (cs_loop draws sqrtFn r k s idx).1 := by
  intro k
  induction k with
  | zero => intro r s idx; exact List.Chain.nil
  | succ k ih =>
    intro r s idx
    by_cases ha : aliveIdsOf s = []
    · simp only [cs_loop, ha, if_pos, List.replicate]
      exact List.Chain.cons (Nat.zero_le _) (chain_replicate_zero k)
    · have hle : countAlive (cs_round draws sqrtFn r s idx).1 ≤ countAlive s :=
        evolves_countAlive (evolves_cs_round draws sqrtFn r s idx)
      simp only [cs_loop, ha, if_neg, ite_false]
      exact List.Chain.cons hle
        (ih (r + 1) (cs_round draws sqrtFn r s idx).1
          (cs_round draws sqrtFn r s idx).2)

theorem cs_loop_energy_zero (draws : ℕ → ℚ) (sqrtFn : ℚ → ℚ) :
    ∀ (k r : ℕ) (s : List Node) (idx i : ℕ),
      (cs_loop draws sqrtFn r k s idx).1.getD i 0 = 0 →
      (cs_loop draws sqrtFn r k s idx).2.getD i 0 = 0 := by
  intro k
  induction k with
  | zero => intro r s idx i _; simp [cs_loop, List.getD]
  | succ k ih =>
    intro r s idx i
    by_cases ha : aliveIdsOf s = []
    · simp only [cs_loop, ha, if_pos]
      intro _
      simpa [List.getD] using getD_replicate (0 : ℚ) (k + 1) i
    · simp only [cs_loop, ha, if_neg, ite_false]
      cases i with
      | zero =>
        intro h0
        have hc : countAlive (cs_round draws sqrtFn r s idx).1 = 0 := by
          simpa [List.getD] using h0
        simpa [List.getD] using sumAliveEnergy_of_dead hc
      | succ i =>
        intro h0
        have := ih (r + 1) (cs_round draws sqrtFn r s idx).1
          (cs_round draws sqrtFn r s idx).2 i (by simpa [List.getD] using h0)
        simpa [List.getD] using this

theorem rl_loop_chain (draws : ℕ → ℚ) (sqrtFn : ℚ → ℚ) (fuel : ℕ) :
    ∀ (k : ℕ) (s : List Node) (idx : ℕ),
      List.Chain (fun a b => b ≤ a) (countAlive s)
        (rl_loop draws sqrtFn fuel k s idx) := by
  intro k
  induction k with
  | zero => intro s idx; exact List.Chain.nil
  | succ k ih =>
    intro s idx
    by_cases ha : aliveIdsOf s = []
    · simp only [rl_loop, ha, if_pos, List.replicate]
      exact List.Chain.cons (Nat.zero_le _) (chain_replicate_zero k)
    · have hle : countAlive (rl_round draws sqrtFn fuel s idx).1 ≤ countAlive s :=
        evolves_countAlive (evolves_rl_round draws sqrtFn fuel s idx)
      simp only [rl_loop, ha, if_neg, ite_false]
      exact List.Chain.cons hle
        (ih (rl_round draws sqrtFn fuel s idx).1
          (rl_round draws sqrtFn fuel s idx).2)

theorem five_thousand_lt_DO2 : (5000 : ℚ) < DO2 := by
  norm_num [DO2, E_FS, E_MP]

theorem sq_bound {x : ℚ} (h0 : 0 ≤ x) (h1 : x ≤ 100) :
    (x - 50)^2 ≤ 2500 := by nlinarith

theorem distSqBS_le_of_inSquare {s : List Node} (hs : InSquare s) (i : ℕ) :
    distSqBS (getN s i) ≤ 5000 := by
  have hb : ∀ n : Node, 0 ≤ n.x → n.x ≤ 100 → 0 ≤ n.y → n.y ≤ 100 →
      distSqBS n ≤ 5000 := by
    intro n hx0 hx1 hy0 hy1
    have h1 := sq_bound hx0 hx1
    have h2 := sq_bound hy0 hy1
    simp only [distSqBS, BS_POS, AREA_SIDE]
    norm_num
    linarith
  cases hfind : s.find? (fun n => n.id == i) with
  | none =>
    rw [getN, hfind]
    simp only [Option.getD_none]
    norm_num [default, distSqBS, BS_POS, AREA_SIDE]
  | some n =>
    have hn : n ∈ s := List.mem_of_find?_eq_some hfind
    rcases hs n hn with ⟨hx0, hx1, hy0, hy1⟩
    rw [getN, hfind]
    exact hb n hx0 (by simpa [AREA_SIDE] using hx1) hy0
      (by simpa [AREA_SIDE] using hy1)

theorem routeChain_id (draws : ℕ → ℚ) (sqrtFn : ℚ → ℚ) (chs : List ℕ)
    (bits : ℕ) {s : List Node} (hs : InSquare s) :
    ∀ (fuel cur idx : ℕ),
      routeChain draws sqrtFn chs bits fuel cur s idx = (cur, s, idx) := by
  intro fuel cur idx
  cases fuel with
  | zero => rfl
  | succ fuel =>
    rw [routeChain]
    have hlt : ¬ DO2 < distSqBS (getN s cur) :=
      not_lt_of_le (le_trans (distSqBS_le_of_inSquare hs cur)
        (le_of_lt five_thousand_lt_DO2))
    rw [if_neg (fun hg => hlt hg.2)]

theorem qpres_map (g : Node → Node) (hg : ∀ n, (g n).q_table = n.q_table)
    {s : List Node} (h : QEmpty s) : QEmpty (List.map g s) := by
  intro n' hn'
  rcases List.mem_map.mp hn' with ⟨n, hn, rfl⟩
  rw [hg n]
  exact h n hn

theorem qpres_modNode (f : Node → Node) (hf : ∀ n, (f n).q_table = n.q_table)
    {s : List Node} (i : ℕ) (h : QEmpty s) : QEmpty (modNode s i f) := by
  refine qpres_map _ (fun n => ?_) h
  by_cases hn : n.id = i
  · simp only [if_pos hn]; exact hf n
  · simp only [if_neg hn]

theorem inSquare_evolves {s s' : List Node} (he : Evolves s s')
    (hs : InSquare s) : InSquare s' := by
  intro n' hn'
  rcases evolves_mem_right he n' hn' with ⟨n, hn, hstep⟩
  rcases hstep with ⟨-, hx, hy, -⟩
  rw [hx, hy]
  exact hs n hn

theorem qempty_rl_electPhase (draws : ℕ → ℚ) (aliveIds : List ℕ)
    {s : List Node} (idx : ℕ) (h : QEmpty s) :
    QEmpty (rl_electPhase draws aliveIds s idx).1 := by
  rw [rl_electPhase]
  have hd : QEmpty (aliveIds.foldl (rl_electStep draws) (s, [], idx)).1 := by
    refine foldl_pres (fun acc : List Node × List ℕ × ℕ => QEmpty acc.1) _ ?_ aliveIds (s, [], idx) h
    intro a b ha
    rw [rl_electStep]
    by_cases hb : draws a.2.2 < RL_P_OPT
    · simp only [if_pos hb]
      exact qpres_modNode (fun n => { n with is_CH := true }) (fun n => rfl) b ha
    · simp only [if_neg hb]; exact ha
  by_cases hz : (aliveIds.foldl (rl_electStep draws) (s, [], idx)).2.1 = [] ∧
      aliveIds ≠ []
  · simp only [if_pos hz]
    exact qpres_modNode (fun n => { n with is_CH := true }) (fun n => rfl) _ hd
  · simp only [if_neg hz]; exact hd

theorem qempty_abose_assignPhase (aliveIds chs : List ℕ) {s : List Node}
    (h : QEmpty s) : QEmpty (abose_assignPhase aliveIds chs s) := by
  refine foldl_pres QEmpty _ ?_ aliveIds s h
  intro a b ha
  rw [abose_assignStep]
  by_cases hb : ¬ (getN a b).is_CH = true ∧ chs ≠ []
  · simp only [if_pos hb]
    exact qpres_modNode
      (fun n => { n with
        cluster := some (minKey (fun c => distSq (getN a b) (getN a c)) chs) })
      (fun n => rfl) b ha
  · simp only [if_neg hb]; exact ha

theorem qempty_chargeN {s : List Node} (i : ℕ) (e : ℚ) (h : QEmpty s) :
    QEmpty (chargeN s i e) :=
  qpres_modNode (fun n => { n with energy := n.energy - e }) (fun n => rfl) i h

theorem qempty_rl_memberPhase (aliveIds : List ℕ) {s : List Node}
    (h : QEmpty s) : QEmpty (rl_memberPhase aliveIds s).1 := by
  refine foldl_pres (fun acc : List Node × (ℕ → ℕ) => QEmpty acc.1) _ ?_ aliveIds (s, fun _ => 0) h
  intro a b ha
  rw [rl_memberStep]
  cases hcl : (getN a.1 b).cluster with
  | none => exact ha
  | some hh =>
    by_cases hc : ¬ (getN a.1 b).is_CH = true ∧ (getN a.1 hh).is_alive = true
    · simp only [if_pos hc]
      exact qempty_chargeN _ _ (qempty_chargeN _ _ ha)
    · simp only [if_neg hc]; exact ha

theorem qempty_deathSweep {s : List Node} (h : QEmpty s) :
    QEmpty (deathSweep s) := by
  refine qpres_map _ (fun n => ?_) h
  by_cases hn : n.energy ≤ 0
  · simp only [if_pos hn]
  · simp only [if_neg hn]

theorem rl_chPhase_pres (draws : ℕ → ℚ) (sqrtFn : ℚ → ℚ) (chs : List ℕ)
    (load : ℕ → ℕ) (fuel : ℕ) {s : List Node} (idx : ℕ)
    (hsq : InSquare s) (hq : QEmpty s) :
    InSquare (rl_chPhase draws sqrtFn chs load fuel s idx).1 ∧
    QEmpty (rl_chPhase draws sqrtFn chs load fuel s idx).1 := by
  refine foldl_pres (fun acc : List Node × ℕ => InSquare acc.1 ∧ QEmpty acc.1) _ ?_ chs (s, idx)
    ⟨hsq, hq⟩
  intro a b ha
  rw [rl_chStep]
  by_cases hb : (getN a.1 b).is_alive = true
  · simp only [if_pos hb]
    have h1sq : InSquare (chargeN a.1 b ((load b * PACKET_SIZE : ℕ) * E_DA)) :=
      inSquare_evolves (evolves_chargeN a.1 b _) ha.1
    have h1q : QEmpty (chargeN a.1 b ((load b * PACKET_SIZE : ℕ) * E_DA)) :=
      qempty_chargeN b _ ha.2
    rw [routeChain_id draws sqrtFn chs ((load b + 1) * PACKET_SIZE) h1sq fuel b a.2]
    by_cases hz : (getN (chargeN a.1 b ((load b * PACKET_SIZE : ℕ) * E_DA)) b).is_alive = true
    · simp only [hz, if_pos]
      exact ⟨inSquare_evolves (evolves_chargeN _ _ _) h1sq, qempty_chargeN _ _ h1q⟩
    · simp only [hz, Bool.false_eq_true, if_neg]
      exact ⟨h1sq, h1q⟩
  · simp only [if_neg hb]; exact ha

theorem rl_round_pres (draws : ℕ → ℚ) (sqrtFn : ℚ → ℚ) (fuel : ℕ)
    {s : List Node} (idx : ℕ) (hsq : InSquare s) (hq : QEmpty s) :
    InSquare (rl_round draws sqrtFn fuel s idx).1 ∧
    QEmpty (rl_round draws sqrtFn fuel s idx).1 := by
  have hsq' : InSquare (rl_round draws sqrtFn fuel s idx).1 :=
    inSquare_evolves (evolves_rl_round draws sqrtFn fuel s idx) hsq
  refine ⟨hsq', ?_⟩
  rw [rl_round]
  have h0 : QEmpty (clearRoles s) :=
    qpres_map (fun n => { n with is_CH := false, cluster := none })
      (fun n => rfl) hq
  have h0sq : InSquare (clearRoles s) :=
    inSquare_evolves (evolves_clearRoles s) hsq
  have h1 := qempty_rl_electPhase draws (aliveIdsOf s) idx h0
  have h1sq : InSquare (rl_electPhase draws (aliveIdsOf s) (clearRoles s) idx).1 :=
    inSquare_evolves (evolves_rl_electPhase draws _ _ _) h0sq
  have h2 := qempty_abose_assignPhase (aliveIdsOf s)
    (rl_electPhase draws (aliveIdsOf s) (clearRoles s) idx).2.1 h1
  have h2sq : InSquare (abose_assignPhase (aliveIdsOf s)
      (rl_electPhase draws (aliveIdsOf s) (clearRoles s) idx).2.1
      (rl_electPhase draws (aliveIdsOf s) (clearRoles s) idx).1) :=
    inSquare_evolves (evolves_abose_assignPhase _ _ _) h1sq
  have h3 := qempty_rl_memberPhase (aliveIdsOf s) h2
  have h3sq : InSquare (rl_memberPhase (aliveIdsOf s)
      (abose_assignPhase (aliveIdsOf s)
        (rl_electPhase draws (aliveIdsOf s) (clearRoles s) idx).2.1
        (rl_electPhase draws (aliveIdsOf s) (clearRoles s) idx).1)).1 :=
    inSquare_evolves (evolves_rl_memberPhase _ _) h2sq
  have h4 := rl_chPhase_pres draws sqrtFn
    (rl_electPhase draws (aliveIdsOf s) (clearRoles s) idx).2.1
    (rl_memberPhase (aliveIdsOf s)
      (abose_assignPhase (aliveIdsOf s)
        (rl_electPhase draws (aliveIdsOf s) (clearRoles s) idx).2.1
        (rl_electPhase draws (aliveIdsOf s) (clearRoles s) idx).1)).2
    fuel
    (rl_electPhase draws (aliveIdsOf s) (clearRoles s) idx).2.2 h3sq h3
  exact qempty_deathSweep h4.2

theorem rl_iter_pres (draws : ℕ → ℚ) (sqrtFn : ℚ → ℚ) (fuel : ℕ) :
    ∀ (k : ℕ) {s : List Node} (idx : ℕ), InSquare s → QEmpty s →
      InSquare (rl_iter draws sqrtFn fuel k s idx).1 ∧
      QEmpty (rl_iter draws sqrtFn fuel k s idx).1 := by
  intro k
  induction k with
  | zero => intro s idx hsq hq; exact ⟨hsq, hq⟩
  | succ k ih =>
    intro s idx hsq hq
    by_cases ha : aliveIdsOf s = []
    · simp only [rl_iter, ha, if_pos]
      exact ⟨hsq, hq⟩
    · simp only [rl_iter, ha, if_neg, ite_false]
      have hr := rl_round_pres draws sqrtFn fuel idx hsq hq
      exact ih (rl_round draws sqrtFn fuel s idx).2 hr.1 hr.2

theorem mrp_bestFold_isSome (s : List Node) (uncovered : List ℕ) :
    ∀ (l : List ℕ) (acc : Option ℕ × ℤ), acc.1.isSome = true →
      ((l.foldl (mrp_bestFold s uncovered) acc).1).isSome = true := by
  intro l
  induction l with
  | nil => intro acc h; exact h
  | cons c t ih =>
    intro acc h
    simp only [List.foldl_cons]
    refine ih _ ?_
    rw [mrp_bestFold]
    by_cases hc : acc.2 < mrp_coverCount s uncovered c
    · simp [hc]
    · simpa [hc] using h

theorem mrp_pickBest_isSome (s : List Node) (uncovered : List ℕ)
    {cands : List ℕ} (h : cands ≠ []) :
    (mrp_pickBest s cands uncovered).isSome = true := by
  cases cands with
  | nil => exact absurd rfl h
  | cons c t =>
    rw [mrp_pickBest]
    simp only [List.foldl_cons]
    refine mrp_bestFold_isSome s uncovered t _ ?_
    rw [mrp_bestFold]
    have hcov : (-1 : ℤ) < mrp_coverCount s uncovered c := by
      have : (0 : ℤ) ≤ mrp_coverCount s uncovered c := Int.ofNat_nonneg _
      omega
    simp [hcov]

theorem mrp_greedy_extends (s : List Node) :
    ∀ (fuel : ℕ) (unc cands acc : List ℕ),
      ∃ t, mrp_greedyCover s fuel unc cands acc = acc ++ t := by
  intro fuel
  induction fuel with
  | zero => intro unc cands acc; exact ⟨[], (List.append_nil acc).symm⟩
  | succ fuel ih =>
    intro unc cands acc
    rw [mrp_greedyCover]
    by_cases hstop : unc = [] ∨ cands = []
    · simp only [if_pos hstop]
      exact ⟨[], (List.append_nil acc).symm⟩
    · simp only [if_neg hstop]
      rcases hpb : mrp_pickBest s cands unc with _ | b <;> simp only [hpb]
      · exact ⟨[], (List.append_nil acc).symm⟩
      · rcases ih (unc.filter
            (fun u => CH_COVERAGE_RADIUS^2 < distSq (getN s u) (getN s b)))
            (cands.erase b) (acc ++ [b]) with ⟨t, ht⟩
        exact ⟨[b] ++ t, by rw [← List.append_assoc]; exact ht⟩

theorem mrp_elect_ne_nil (draws : ℕ → ℚ) {aliveIds : List ℕ} (s : List Node)
    (idx : ℕ) (h : aliveIds ≠ []) :
    (mrp_elect draws aliveIds s idx).1 ≠ [] := by
  rw [mrp_elect]
  cases hc : (mrp_candPhase draws aliveIds s idx).1 with
  | nil =>
    simp only [List.length_nil, mrp_greedyCover, if_pos (Or.inr rfl)]
    simp [h]
  | cons x xs =>
    have hfin : mrp_greedyCover s (x :: xs).length aliveIds (x :: xs) [] ≠ [] := by
      simp only [List.length_cons]
      rw [mrp_greedyCover]
      have hstop : ¬ (aliveIds = [] ∨ x :: xs = []) := by
        rintro (h1 | h2)
        · exact h h1
        · cases h2
      simp only [if_neg hstop]
      rcases hpb : mrp_pickBest s (x :: xs) aliveIds with _ | b <;> simp only [hpb]
      · exfalso
        have hps : (mrp_pickBest s (x :: xs) aliveIds).isSome = true :=
          mrp_pickBest_isSome s aliveIds (by intro hh; cases hh)
        rw [hpb] at hps
        cases hps
      · rcases mrp_greedy_extends s xs.length
          (aliveIds.filter
            (fun u => CH_COVERAGE_RADIUS^2 < distSq (getN s u) (getN s b)))
          ((x :: xs).erase b) ([] ++ [b]) with ⟨t, ht⟩
        rw [ht]
        simp
    by_cases hz : mrp_greedyCover s (x :: xs).length aliveIds (x :: xs) [] = [] ∧
        aliveIds ≠ []
    · exact absurd hz.1 hfin
    · rw [if_neg hz]
      exact hfin

theorem mrp_elect_fallback (draws : ℕ → ℚ) {aliveIds : List ℕ}
    (s : List Node) (idx : ℕ) (h : aliveIds ≠ [])
    (hc : (mrp_elect draws aliveIds s idx).2.1 = []) :
    (mrp_elect draws aliveIds s idx).1 =
      [maxKey (fun i => (getN s i).energy) aliveIds] := by
  have hc' : (mrp_candPhase draws aliveIds s idx).1 = [] := by
    simpa [mrp_elect] using hc
  rw [mrp_elect]
  simp only [hc', List.length_nil]
  simp only [mrp_greedyCover, if_pos (Or.inr rfl)]
  simp [h]

theorem mrp_relayFold_inv (s : List Node) (cId : ℕ) (bits : ℕ) (dd cd : ℚ) :
    ∀ (l : List ℕ) (acc : Option ℕ × ℚ),
      (acc.2 ≤ cd ∧ ∀ r, acc.1 = some r →
        ((getN s r).is_alive = true ∧ r ≠ cId ∧ distSqBS (getN s r) < dd ∧
         distSq (getN s cId) (getN s r) < 2^2 * DO2 ∧
         tx_energy bits (distSq (getN s cId) (getN s r)) < cd)) →
      ((l.foldl (mrp_relayFold s cId bits dd) acc).2 ≤ cd ∧
        ∀ r, (l.foldl (mrp_relayFold s cId bits dd) acc).1 = some r →
        ((getN s r).is_alive = true ∧ r ≠ cId ∧ distSqBS (getN s r) < dd ∧
         distSq (getN s cId) (getN s r) < 2^2 * DO2 ∧
         tx_energy bits (distSq (getN s cId) (getN s r)) < cd)) := by
  intro l
  induction l with
  | nil => intro acc h; exact h
  | cons rId t ih =>
    intro acc h
    simp only [List.foldl_cons]
    refine ih _ ?_
    rw [mrp_relayFold]
    by_cases h1 : rId = cId ∨ (getN s rId).is_alive = false
    · simpa [h1] using h
    · simp only [if_neg h1]
      push_neg at h1
      by_cases h2 : distSqBS (getN s rId) < dd ∧
          distSq (getN s cId) (getN s rId) < 2^2 * DO2
      · simp only [if_pos h2]
        by_cases h3 : tx_energy bits (distSq (getN s cId) (getN s rId)) < acc.2
        · simp only [if_pos h3]
          have hlt : tx_energy bits (distSq (getN s cId) (getN s rId)) < cd :=
            lt_of_lt_of_le h3 h.1
          refine ⟨le_of_lt hlt, ?_⟩
          intro r hr
          have : r = rId := by
            simpa using congrArg (fun o => o.getD 0) hr.symm
          subst this
          have halive : (getN s r).is_alive = true := by
            cases hA : (getN s r).is_alive
            · exact absurd hA h1.2
            · rfl
          exact ⟨halive, h1.1, h2.1, h2.2, hlt⟩
        · simpa [h3] using h
      · simpa [h2] using h

theorem mrp_pickRelay_spec {s : List Node} {chsList : List ℕ} {cId : ℕ}
    {bits : ℕ} {dd cd : ℚ} {r : ℕ}
    (h : mrp_pickRelay s chsList cId bits dd cd = some r) :
    (getN s r).is_alive = true ∧ r ≠ cId ∧ distSqBS (getN s r) < dd ∧
    distSq (getN s cId) (getN s r) < 2^2 * DO2 ∧
    tx_energy bits (distSq (getN s cId) (getN s r)) < cd := by
  have := mrp_relayFold_inv s cId bits dd cd chsList ((none : Option ℕ), cd)
    ⟨le_rfl, fun r hr => by cases hr⟩
  exact this.2 r (by rw [mrp_pickRelay] at h; exact h)

theorem abose_electPhase_ne_nil (draws : ℕ → ℚ) (round_num : ℕ)
    {aliveIds : List ℕ} (s : List Node) (idx : ℕ) (h : aliveIds ≠ []) :
    (abose_electPhase draws round_num aliveIds s idx).2.1 ≠ [] := by
  rw [abose_electPhase]
  by_cases hz : (abose_electDraws draws round_num aliveIds s idx).2.1 = [] ∧
      aliveIds ≠ []
  · simp only [if_pos hz]
    intro hh; cases hh
  · rw [if_neg hz]
    intro hh
    exact hz ⟨hh, h⟩

theorem abose_electPhase_fallback (draws : ℕ → ℚ) (round_num : ℕ)
    {aliveIds : List ℕ} (s : List Node) (idx : ℕ) (h : aliveIds ≠ [])
    (hc : (abose_electDraws draws round_num aliveIds s idx).2.1 = []) :
    (abose_electPhase draws round_num aliveIds s idx).2.1 =
      [maxKey (fun i => (getN (abose_electDraws draws round_num aliveIds s idx).1 i).energy)
        aliveIds] := by
  rw [abose_electPhase]
  simp only [if_pos (And.intro hc h)]

theorem rl_electPhase_ne_nil (draws : ℕ → ℚ) {aliveIds : List ℕ}
    (s : List Node) (idx : ℕ) (h : aliveIds ≠ []) :
    (rl_electPhase draws aliveIds s idx).2.1 ≠ [] := by
  rw [rl_electPhase]
  by_cases hz : (aliveIds.foldl (rl_electStep draws) (s, [], idx)).2.1 = [] ∧
      aliveIds ≠ []
  · simp only [if_pos hz]
    intro hh; cases hh
  · rw [if_neg hz]
    intro hh
    exact hz ⟨hh, h⟩

theorem clustnone_modNode (f : Node → Node)
    (hid : ∀ n, (f n).id = n.id)
    (hf : ∀ n, (f n).cluster = n.cluster ∨ (f n).cluster = none)
    {s : List Node} {a : ℕ} (i : ℕ)
    (h : ∀ n ∈ s, n.id = a → n.cluster = none) :
    ∀ n ∈ modNode s i f, n.id = a → n.cluster = none := by
  intro n' hn' hida
  rcases List.mem_map.mp hn' with ⟨n, hn, rfl⟩
  by_cases hni : n.id = i
  · simp only [if_pos hni] at hida ⊢
    rcases hf n with hsame | hnone
    · rw [hsame]
      exact h n hn ((hid n) ▸ hida)
    · exact hnone
  · simp only [if_neg hni] at hida ⊢
    exact h n hn hida

theorem cs_electStep_pres (draws : ℕ → ℚ) (sqrtFn : ℚ → ℚ) (round_num : ℕ)
    (acc : List Node × List ℕ × ℕ) (i : ℕ) {a : ℕ}
    (h : ∀ n ∈ acc.1, n.id = a → n.cluster = none) :
    ∀ n ∈ (cs_electStep draws sqrtFn round_num acc i).1, n.id = a →
      n.cluster = none := by
  rw [cs_electStep]
  have h1 := clustnone_modNode (fun n => { n with is_CH := false, cluster := none })
    (fun n => rfl) (fun n => Or.inr rfl) i h
  by_cases hd : draws acc.2.2 ≤
      compute_cs_aware_threshold sqrtFn
        (modNode acc.1 i (fun n => { n with is_CH := false, cluster := none }))
        i round_num
  · simp only [if_pos hd]
    exact clustnone_modNode (fun n => { n with is_CH := true })
      (fun n => rfl) (fun n => Or.inl rfl) i h1
  · simp only [if_neg hd]
    exact h1

theorem cs_electStep_self (draws : ℕ → ℚ) (sqrtFn : ℚ → ℚ) (round_num : ℕ)
    (acc : List Node × List ℕ × ℕ) (i : ℕ) :
    ∀ n ∈ (cs_electStep draws sqrtFn round_num acc i).1, n.id = i →
      n.cluster = none := by
  rw [cs_electStep]
  have h1 : ∀ n ∈ modNode acc.1 i
      (fun n => { n with is_CH := false, cluster := none }), n.id = i →
      n.cluster = none := by
    intro n' hn' hid
    rcases List.mem_map.mp hn' with ⟨n, hn, rfl⟩
    by_cases hni : n.id = i
    · simp [hni]
    · simp only [if_neg hni] at hid ⊢
      exact absurd hid hni
  by_cases hd : draws acc.2.2 ≤
      compute_cs_aware_threshold sqrtFn
        (modNode acc.1 i (fun n => { n with is_CH := false, cluster := none }))
        i round_num
  · simp only [if_pos hd]
    exact clustnone_modNode (fun n => { n with is_CH := true })
      (fun n => rfl) (fun n => Or.inl rfl) i h1
  · simp only [if_neg hd]
    exact h1

theorem cs_electDraws_clust (draws : ℕ → ℚ) (sqrtFn : ℚ → ℚ) (round_num : ℕ) :
    ∀ (l : List ℕ) (acc : List Node × List ℕ × ℕ), ∀ a ∈ l,
      ∀ n ∈ (l.foldl (cs_electStep draws sqrtFn round_num) acc).1, n.id = a →
        n.cluster = none := by
  intro l
  induction l with
  | nil => intro acc a ha; cases ha
  | cons x xs ih =>
    intro acc a ha
    simp only [List.foldl_cons]
    rcases List.mem_cons.mp ha with rfl | ha'
    · refine foldl_pres
        (fun acc2 : List Node × List ℕ × ℕ =>
          ∀ n ∈ acc2.1, n.id = a → n.cluster = none) _ ?_ xs _
        (cs_electStep_self draws sqrtFn round_num acc a)
      intro b c hb
      exact cs_electStep_pres draws sqrtFn round_num b c hb
    · exact ih _ a ha'

theorem cs_electPhase_clust (draws : ℕ → ℚ) (sqrtFn : ℚ → ℚ) (round_num : ℕ)
    (aliveIds : List ℕ) (s : List Node) (idx : ℕ) :
    ∀ a ∈ aliveIds,
      ∀ n ∈ (cs_electPhase draws sqrtFn round_num aliveIds s idx).1, n.id = a →
        n.cluster = none := by
  intro a ha
  rw [cs_electPhase]
  have hd : ∀ n ∈ (cs_electDraws draws sqrtFn round_num aliveIds s idx).1,
      n.id = a → n.cluster = none := by
    rw [cs_electDraws]
    exact cs_electDraws_clust draws sqrtFn round_num aliveIds (s, [], idx) a ha
  by_cases hz : (cs_electDraws draws sqrtFn round_num aliveIds s idx).2.1 = [] ∧
      aliveIds ≠ []
  · simp only [if_pos hz]
    exact clustnone_modNode (fun n => { n with is_CH := true })
      (fun n => rfl) (fun n => Or.inl rfl) _ hd
  · simp only [if_neg hz]
    exact hd

theorem getN_chargeN_energy {s : List Node} {i : ℕ} (h : hasId s i = true)
    (e : ℚ) :
    (getN (chargeN s i e) i).energy = (getN s i).energy - e := by
  rw [getN_chargeN_self h]

theorem getN_chargeN_alive {s : List Node} {i : ℕ} (h : hasId s i = true)
    (e : ℚ) :
    (getN (chargeN s i e) i).is_alive = (getN s i).is_alive := by
  rw [getN_chargeN_self h]

theorem distSqBS_chargeN {s : List Node} {i : ℕ} (h : hasId s i = true)
    (e : ℚ) :
    distSqBS (getN (chargeN s i e) i) = distSqBS (getN s i) := by
  rw [getN_chargeN_self h]
  simp [distSqBS]

theorem getN_killIfDead_energy {s : List Node} {i : ℕ} (h : hasId s i = true) :
    (getN (killIfDead s i) i).energy = (getN s i).energy := by
  rw [getN_killIfDead_self h]
  by_cases hk : (getN s i).energy ≤ 0
  · rw [if_pos hk]
  · rw [if_neg hk]

theorem getN_killIfDead_alive {s : List Node} {i : ℕ} (h : hasId s i = true) :
    (getN (killIfDead s i) i).is_alive =
      (if (getN s i).energy ≤ 0 then false else (getN s i).is_alive) := by
  rw [getN_killIfDead_self h]
  by_cases hk : (getN s i).energy ≤ 0
  · rw [if_pos hk, if_pos hk]
  · rw [if_neg hk, if_neg hk]

theorem abose_memberStep_eq {s : List Node} {i h : ℕ}
    (hch : (getN s i).is_CH = false) (hcl : (getN s i).cluster = some h)
    (hal : (getN s i).is_alive = true) (hne : h ≠ i)
    (hph : hasId s h = true) :
    (getN (abose_memberStep s i) i).energy =
      (getN s i).energy -
        tx_energy PACKET_SIZE (distSq (getN s i) (getN s h)) ∧
    ((getN (abose_memberStep s i) i).is_alive = true ↔
      0 < (getN (abose_memberStep s i) i).energy) ∧
    (getN (abose_memberStep s i) h).is_alive = (getN s h).is_alive ∧
    (getN (abose_memberStep s i) h).energy =
      (getN s h).energy - rx_energy PACKET_SIZE := by
  have hpi : hasId s i = true := hasId_of_alive hal
  have hstep : abose_memberStep s i =
      killIfDead
        (chargeN (chargeN s i
          (tx_energy PACKET_SIZE (distSq (getN s i) (getN s h)))) h
          (rx_energy PACKET_SIZE)) i := by
    rw [abose_memberStep]
    simp only [hcl]
    have hnch : ¬ (getN s i).is_CH = true := by
      rw [hch]; exact Bool.false_ne_true
    rw [if_pos hnch]
  set s1 := chargeN s i (tx_energy PACKET_SIZE (distSq (getN s i) (getN s h)))
    with hs1
  set s2 := chargeN s1 h (rx_energy PACKET_SIZE) with hs2
  have hp1 : hasId s1 i = true := by rw [hs1, hasId_chargeN]; exact hpi
  have hp2 : hasId s2 i = true := by rw [hs2, hasId_chargeN]; exact hp1
  have he2 : (getN s2 i).energy =
      (getN s i).energy -
        tx_energy PACKET_SIZE (distSq (getN s i) (getN s h)) := by
    rw [hs2, getN_chargeN_ne (Ne.symm hne), hs1, getN_chargeN_energy hpi]
  have ha2 : (getN s2 i).is_alive = true := by
    rw [hs2, getN_chargeN_ne (Ne.symm hne), hs1, getN_chargeN_alive hpi]
    exact hal
  refine ⟨?_, ?_, ?_, ?_⟩
  · rw [hstep, getN_killIfDead_energy hp2, he2]
  · rw [hstep, getN_killIfDead_alive hp2, getN_killIfDead_energy hp2]
    by_cases hk : (getN s2 i).energy ≤ 0
    · rw [if_pos hk]
      constructor
      · intro hh; cases hh
      · intro hh; exact absurd hh (not_lt_of_le hk)
    · rw [if_neg hk]
      exact ⟨fun _ => lt_of_not_le hk, fun _ => ha2⟩
  · rw [hstep, getN_killIfDead_ne hne, hs2, getN_chargeN_alive
      (by rw [hs1, hasId_chargeN]; exact hph), hs1, getN_chargeN_ne hne]
  · rw [hstep, getN_killIfDead_ne hne, hs2, getN_chargeN_energy
      (by rw [hs1, hasId_chargeN]; exact hph), hs1, getN_chargeN_ne hne]

theorem abose_chStep_flag (aliveIds : List ℕ) {s : List Node} {c : ℕ}
    (hal : (getN s c).is_alive = true) :
    ((getN (abose_chStep aliveIds s c) c).is_alive = true ↔
      0 < (getN (abose_chStep aliveIds s c) c).energy) := by
  have hpc : hasId s c = true := hasId_of_alive hal
  rw [abose_chStep, if_pos hal]
  set s1 := chargeN s c
    ((abose_memberCount aliveIds s c * PACKET_SIZE : ℕ) * E_DA) with hs1
  set s2 := chargeN s1 c
    (tx_energy (PACKET_SIZE * (abose_memberCount aliveIds s c + 1))
      (distSqBS (getN s1 c))) with hs2
  have hp1 : hasId s1 c = true := by rw [hs1, hasId_chargeN]; exact hpc
  have hp2 : hasId s2 c = true := by rw [hs2, hasId_chargeN]; exact hp1
  have ha2 : (getN s2 c).is_alive = true := by
    rw [hs2, getN_chargeN_alive hp1, hs1, getN_chargeN_alive hpc]
    exact hal
  rw [getN_killIfDead_alive hp2, getN_killIfDead_energy hp2]
  by_cases hk : (getN s2 c).energy ≤ 0
  · rw [if_pos hk]
    constructor
    · intro hh; cases hh
    · intro hh; exact absurd hh (not_lt_of_le hk)
  · rw [if_neg hk]
    exact ⟨fun _ => lt_of_not_le hk, fun _ => ha2⟩

theorem cs_chStep_energy (aliveIds : List ℕ) {s : List Node} {c m : ℕ}
    (hal : (getN s c).is_alive = true)
    (hm : (aliveIds.filter (fun i => (getN s i).cluster = some c)).length = m)
    (h0 : 0 < m) :
    (getN (cs_chStep aliveIds s c) c).energy =
      (getN s c).energy - ((m * PACKET_SIZE : ℕ) * E_DA) -
      tx_energy (cs_total_bits m) (distSqBS (getN s c)) := by
  have hpc : hasId s c = true := hasId_of_alive hal
  rw [cs_chStep, if_pos hal]
  simp only [hm, if_pos h0]
  set sA := chargeN s c ((m * PACKET_SIZE : ℕ) * E_DA) with hsA
  have hpA : hasId sA c = true := by rw [hsA, hasId_chargeN]; exact hpc
  have hdA : distSqBS (getN sA c) = distSqBS (getN s c) := by
    rw [hsA, distSqBS_chargeN hpc]
  rw [hdA]
  set sB := chargeN sA c (tx_energy (cs_total_bits m) (distSqBS (getN s c)))
    with hsB
  have hpB : hasId sB c = true := by rw [hsB, hasId_chargeN]; exact hpA
  rw [getN_killIfDead_energy hpB, hsB, getN_chargeN_energy hpA, hsA,
    getN_chargeN_energy hpc]

theorem rl_chStep_direct (draws : ℕ → ℚ) (sqrtFn : ℚ → ℚ) (chs : List ℕ)
    (load : ℕ → ℕ) (fuel : ℕ) {s : List Node} (idx : ℕ) {c : ℕ}
    (hsq : InSquare s) (hal : (getN s c).is_alive = true) :
    (rl_chStep draws sqrtFn chs load fuel (s, idx) c).2 = idx ∧
    (getN (rl_chStep draws sqrtFn chs load fuel (s, idx) c).1 c).energy =
      (getN s c).energy - ((load c * PACKET_SIZE : ℕ) * E_DA) -
      tx_energy ((load c + 1) * PACKET_SIZE) (distSqBS (getN s c)) := by
  have hpc : hasId s c = true := hasId_of_alive hal
  rw [rl_chStep]
  simp only []
  rw [if_pos hal]
  set s1 := chargeN s c ((load c * PACKET_SIZE : ℕ) * E_DA) with hs1
  have h1sq : InSquare s1 := inSquare_evolves (evolves_chargeN s c _) hsq
  rw [routeChain_id draws sqrtFn chs ((load c + 1) * PACKET_SIZE) h1sq fuel c idx]
  have hp1 : hasId s1 c = true := by rw [hs1, hasId_chargeN]; exact hpc
  have h1al : (getN s1 c).is_alive = true := by
    rw [hs1, getN_chargeN_alive hpc]; exact hal
  rw [if_pos h1al]
  refine ⟨rfl, ?_⟩
  have hd1 : distSqBS (getN s1 c) = distSqBS (getN s c) := by
    rw [hs1, distSqBS_chargeN hpc]
  rw [getN_chargeN_energy hp1, hd1, hs1, getN_chargeN_energy hpc]

theorem mrp_relayStep_relay {s : List Node} {final : List ℕ} {load : ℕ → ℕ}
    {c r : ℕ} (hal : (getN s c).is_alive = true)
    (hpick : mrp_pickRelay s final c (load c * PACKET_SIZE)
      (distSqBS (getN s c))
      (tx_energy (load c * PACKET_SIZE) (distSqBS (getN s c))) = some r) :
    (getN (mrp_relayStep final load s c) r).energy =
      (getN s r).energy - rx_energy (load c * PACKET_SIZE) -
      tx_energy (load c * PACKET_SIZE) (distSqBS (getN s r)) := by
  have hspec := mrp_pickRelay_spec hpick
  have hralive : (getN s r).is_alive = true := hspec.1
  have hrc : r ≠ c := hspec.2.1
  have hpr : hasId s r = true := hasId_of_alive hralive
  rw [mrp_relayStep, if_pos hal]
  simp only [hpick]
  set s1 := chargeN s c
    (tx_energy (load c * PACKET_SIZE) (distSq (getN s c) (getN s r))) with hs1
  have hgr1 : getN s1 r = getN s r := by rw [hs1, getN_chargeN_ne hrc]
  have hpr1 : hasId s1 r = true := by rw [hs1, hasId_chargeN]; exact hpr
  set s2 := chargeN s1 r (rx_energy (load c * PACKET_SIZE)) with hs2
  have hpr2 : hasId s2 r = true := by rw [hs2, hasId_chargeN]; exact hpr1
  have hd2 : distSqBS (getN s2 r) = distSqBS (getN s r) := by
    rw [hs2, distSqBS_chargeN hpr1, hgr1]
  rw [getN_chargeN_energy hpr2, hd2, hs2, getN_chargeN_energy hpr1, hgr1]

theorem getN_absent {s : List Node} {j : ℕ} (h : ¬ hasId s j = true) :
    getN s j = default := by
  cases hfind : s.find? (fun n => n.id == j) with
  | none => rw [getN, hfind]; rfl
  | some n => exact absurd (by rw [hasId, hfind]; rfl) h

theorem getN_map (g : Node → Node) (hid : ∀ n, (g n).id = n.id)
    (s : List Node) (j : ℕ) :
    getN (List.map g s) j =
      if hasId s j then g (getN s j) else getN s j := by
  induction s with
  | nil =>
    simp only [List.map_nil]
    rw [if_neg (by rw [hasId, List.find?_nil]; simp)]
  | cons n t ih =>
    simp only [List.map_cons]
    by_cases hn : n.id = j
    · simp [getN_cons, hasId_cons, hid n, hn]
    · simp [getN_cons, hasId_cons, hid n, hn, ih]

theorem aliveEq_rfl (s : List Node) : AliveEq s s := fun _ => rfl

theorem aliveEq_trans {s t u : List Node} (h1 : AliveEq s t)
    (h2 : AliveEq t u) : AliveEq s u := fun j => (h2 j).trans (h1 j)

theorem aliveEq_modNode (f : Node → Node) (hid : ∀ n, (f n).id = n.id)
    (hal : ∀ n, (f n).is_alive = n.is_alive) (s : List Node) (i : ℕ) :
    AliveEq s (modNode s i f) := by
  intro j
  rw [getN_modNode f hid s i j]
  by_cases hj : j = i
  · subst hj
    by_cases hp : hasId s j = true
    · rw [if_pos rfl, if_pos hp, hal]
    · rw [if_pos rfl, if_neg hp]
  · rw [if_neg hj]

theorem aliveEq_map (g : Node → Node) (hid : ∀ n, (g n).id = n.id)
    (hal : ∀ n, (g n).is_alive = n.is_alive) (s : List Node) :
    AliveEq s (List.map g s) := by
  intro j
  rw [getN_map g hid s j]
  by_cases hp : hasId s j = true
  · rw [if_pos hp, hal]
  · rw [if_neg hp]

theorem aliveEq_chargeN (s : List Node) (i : ℕ) (e : ℚ) :
    AliveEq s (chargeN s i e) :=
  aliveEq_modNode (fun n => { n with energy := n.energy - e })
    (fun _ => rfl) (fun _ => rfl) s i

theorem aliveEq_setCH (s : List Node) (i : ℕ) (b : Bool) :
    AliveEq s (modNode s i (fun n => { n with is_CH := b })) :=
  aliveEq_modNode (fun n => { n with is_CH := b })
    (fun _ => rfl) (fun _ => rfl) s i

theorem aliveEq_modQ (g : Node → List (ℕ × ℚ)) (s : List Node) (i : ℕ) :
    AliveEq s (modNode s i (fun n => { n with q_table := g n })) :=
  aliveEq_modNode (fun n => { n with q_table := g n })
    (fun _ => rfl) (fun _ => rfl) s i

theorem aliveEq_clearRoles (s : List Node) : AliveEq s (clearRoles s) :=
  aliveEq_map (fun n => { n with is_CH := false, cluster := none })
    (fun _ => rfl) (fun _ => rfl) s

theorem deathSweep_spec (s : List Node) (j : ℕ) :
    (getN (deathSweep s) j).is_alive =
      (if (getN s j).energy ≤ 0 then false else (getN s j).is_alive) ∧
    (getN (deathSweep s) j).energy = (getN s j).energy := by
  have hid : ∀ n : Node,
      ((if n.energy ≤ 0 then { n with is_alive := false } else n) : Node).id
        = n.id := by
    intro n
    by_cases hk : n.energy ≤ 0
    · rw [if_pos hk]
    · rw [if_neg hk]
  rw [deathSweep, getN_map _ hid s j]
  by_cases hp : hasId s j = true
  · rw [if_pos hp]
    by_cases hk : (getN s j).energy ≤ 0
    · rw [if_pos hk, if_pos hk]
      exact ⟨rfl, rfl⟩
    · rw [if_neg hk, if_neg hk]
      exact ⟨rfl, rfl⟩
  · rw [if_neg hp, getN_absent hp]
    have hd : ((default : Node).energy ≤ 0) := le_of_eq rfl
    rw [if_pos hd]
    exact ⟨rfl, rfl⟩

theorem aliveEq_rl_electPhase (draws : ℕ → ℚ) (aliveIds : List ℕ)
    (s : List Node) (idx : ℕ) :
    AliveEq s (rl_electPhase draws aliveIds s idx).1 := by
  rw [rl_electPhase]
  have hd : AliveEq s (aliveIds.foldl (rl_electStep draws) (s, [], idx)).1 := by
    refine foldl_pres
      (fun acc : List Node × List ℕ × ℕ => AliveEq s acc.1) _ ?_ aliveIds
      (s, [], idx) (aliveEq_rfl s)
    intro a b ha
    rw [rl_electStep]
    by_cases hb : draws a.2.2 < RL_P_OPT
    · simp only [if_pos hb]
      exact aliveEq_trans ha (aliveEq_setCH a.1 b true)
    · simp only [if_neg hb]; exact ha
  by_cases hz : (aliveIds.foldl (rl_electStep draws) (s, [], idx)).2.1 = [] ∧
      aliveIds ≠ []
  · simp only [if_pos hz]
    exact aliveEq_trans hd (aliveEq_setCH _ _ true)
  · simp only [if_neg hz]; exact hd

theorem aliveEq_abose_assignPhase (aliveIds chs : List ℕ) (s : List Node) :
    AliveEq s (abose_assignPhase aliveIds chs s) := by
  refine foldl_pres (AliveEq s) _ ?_ aliveIds s (aliveEq_rfl s)
  intro a b ha
  rw [abose_assignStep]
  by_cases hb : ¬ (getN a b).is_CH = true ∧ chs ≠ []
  · simp only [if_pos hb]
    exact aliveEq_trans ha
      (aliveEq_modNode
        (fun n => { n with
          cluster := some (minKey (fun c => distSq (getN a b) (getN a c)) chs) })
        (fun _ => rfl) (fun _ => rfl) a b)
  · simp only [if_neg hb]; exact ha

theorem aliveEq_rl_memberPhase (aliveIds : List ℕ) (s : List Node) :
    AliveEq s (rl_memberPhase aliveIds s).1 := by
  refine foldl_pres
    (fun acc : List Node × (ℕ → ℕ) => AliveEq s acc.1) _ ?_ aliveIds
    (s, fun _ => 0) (aliveEq_rfl s)
  intro a b ha
  rw [rl_memberStep]
  cases hcl : (getN a.1 b).cluster with
  | none => exact ha
  | some hh =>
    by_cases hc : ¬ (getN a.1 b).is_CH = true ∧ (getN a.1 hh).is_alive = true
    · simp only [if_pos hc]
      exact aliveEq_trans ha
        (aliveEq_trans (aliveEq_chargeN _ _ _) (aliveEq_chargeN _ _ _))
    · simp only [if_neg hc]; exact ha

theorem aliveEq_routeChain (draws : ℕ → ℚ) (sqrtFn : ℚ → ℚ) (chs : List ℕ)
    (bits : ℕ) :
    ∀ (fuel cur : ℕ) (s : List Node) (idx : ℕ),
      AliveEq s (routeChain draws sqrtFn chs bits fuel cur s idx).2.1 := by
  intro fuel
  induction fuel with
  | zero => intro cur s idx; exact aliveEq_rfl s
  | succ fuel ih =>
    intro cur s idx
    rw [routeChain]
    by_cases hg : (getN s cur).is_alive = true ∧ DO2 < distSqBS (getN s cur)
    · simp only [if_pos hg]
      by_cases hn : chs.filter (fun c => (getN s c).is_alive ∧ c ≠ cur) = []
      · simp only [if_pos hn]; exact aliveEq_rfl s
      · simp only [if_neg hn]
        refine aliveEq_trans ?_ (ih _ _ _)
        refine aliveEq_trans ?_ (aliveEq_modQ _ _ _)
        refine aliveEq_trans ?_ (aliveEq_chargeN _ _ _)
        exact aliveEq_chargeN _ _ _
    · simp only [if_neg hg]; exact aliveEq_rfl s

theorem aliveEq_rl_chPhase (draws : ℕ → ℚ) (sqrtFn : ℚ → ℚ) (chs : List ℕ)
    (load : ℕ → ℕ) (fuel : ℕ) (s : List Node) (idx : ℕ) :
    AliveEq s (rl_chPhase draws sqrtFn chs load fuel s idx).1 := by
  refine foldl_pres
    (fun acc : List Node × ℕ => AliveEq s acc.1) _ ?_ chs (s, idx)
    (aliveEq_rfl s)
  intro a b ha
  rw [rl_chStep]
  by_cases hb : (getN a.1 b).is_alive = true
  · simp only [if_pos hb]
    have h1 : AliveEq a.1
        (chargeN a.1 b ((load b * PACKET_SIZE : ℕ) * E_DA)) :=
      aliveEq_chargeN _ _ _
    have h2 := aliveEq_routeChain draws sqrtFn chs ((load b + 1) * PACKET_SIZE)
      fuel b (chargeN a.1 b ((load b * PACKET_SIZE : ℕ) * E_DA)) a.2
    by_cases hz : (getN (routeChain draws sqrtFn chs ((load b + 1) * PACKET_SIZE)
        fuel b (chargeN a.1 b ((load b * PACKET_SIZE : ℕ) * E_DA)) a.2).2.1
        (routeChain draws sqrtFn chs ((load b + 1) * PACKET_SIZE)
        fuel b (chargeN a.1 b ((load b * PACKET_SIZE : ℕ) * E_DA)) a.2).1).is_alive
        = true
    · simp only [hz, if_pos]
      exact aliveEq_trans ha
        (aliveEq_trans h1 (aliveEq_trans h2 (aliveEq_chargeN _ _ _)))
    · simp only [hz, Bool.false_eq_true, if_neg]
      exact aliveEq_trans ha (aliveEq_trans h1 h2)
  · simp only [if_neg hb]; exact ha

theorem rl_preSweep_alive (draws : ℕ → ℚ) (sqrtFn : ℚ → ℚ) (fuel : ℕ)
    (s : List Node) (idx : ℕ) :
    AliveEq s (rl_preSweep draws sqrtFn fuel s idx).1 := by
  rw [rl_preSweep]
  refine aliveEq_trans ?_ (aliveEq_rl_chPhase _ _ _ _ _ _ _)
  refine aliveEq_trans ?_ (aliveEq_rl_memberPhase _ _)
  refine aliveEq_trans ?_ (aliveEq_abose_assignPhase _ _ _)
  exact aliveEq_trans (aliveEq_clearRoles s) (aliveEq_rl_electPhase _ _ _ _)

theorem aliveEq_mrp_markCH (s : List Node) (final : List ℕ) :
    AliveEq s (mrp_markCH s final) := by
  refine foldl_pres (AliveEq s) _ ?_ final s (aliveEq_rfl s)
  intro a b ha
  exact aliveEq_trans ha (aliveEq_setCH a b true)

theorem aliveEq_mrp_memberPhase (final aliveIds : List ℕ) (s : List Node) :
    AliveEq s (mrp_memberPhase final aliveIds s).1 := by
  refine foldl_pres
    (fun acc : List Node × (ℕ → ℕ) => AliveEq s acc.1) _ ?_ aliveIds
    (s, fun _ => 1) (aliveEq_rfl s)
  intro a b ha
  rw [mrp_memberStep]
  by_cases h1 : ¬ (getN a.1 b).is_CH = true ∧ final ≠ []
  · simp only [if_pos h1]
    have hset : AliveEq a.1
        (modNode a.1 b (fun n => { n with
          cluster := some (minKey (fun ch => distSq (getN a.1 b) (getN a.1 ch)) final) })) :=
      aliveEq_modNode (fun n => { n with
          cluster := some (minKey (fun ch => distSq (getN a.1 b) (getN a.1 ch)) final) })
        (fun _ => rfl) (fun _ => rfl) a.1 b
    set sB := modNode a.1 b (fun n => { n with
      cluster := some (minKey (fun ch => distSq (getN a.1 b) (getN a.1 ch)) final) })
    set c := minKey (fun ch => distSq (getN a.1 b) (getN a.1 ch)) final
    by_cases h2 : (getN sB c).is_alive = true
    · simp only [if_pos h2]
      by_cases h3 : tx_energy PACKET_SIZE (distSq (getN sB b) (getN sB c)) <
          (getN sB b).energy
      · simp only [if_pos h3]
        exact aliveEq_trans ha (aliveEq_trans hset
          (aliveEq_trans (aliveEq_chargeN _ _ _) (aliveEq_chargeN _ _ _)))
      · simp only [if_neg h3]
        exact aliveEq_trans ha hset
    · simp only [if_neg h2]
      exact aliveEq_trans ha hset
  · simp only [if_neg h1]; exact ha

theorem aliveEq_mrp_aggPhase (load : ℕ → ℕ) (final : List ℕ)
    (s : List Node) : AliveEq s (mrp_aggPhase load final s) := by
  refine foldl_pres (AliveEq s) _ ?_ final s (aliveEq_rfl s)
  intro a b ha
  rw [mrp_aggStep]
  by_cases h1 : (getN a b).is_alive = true
  · simp only [if_pos h1]
    by_cases h2 : 0 < load b - 1
    · simp only [if_pos h2]
      exact aliveEq_trans ha (aliveEq_chargeN _ _ _)
    · simp only [if_neg h2]; exact ha
  · simp only [if_neg h1]; exact ha

theorem aliveEq_mrp_relayPhase (final : List ℕ) (load : ℕ → ℕ)
    (s : List Node) : AliveEq s (mrp_relayPhase final load s) := by
  rw [mrp_relayPhase]
  refine foldl_pres (AliveEq s) _ ?_
    (sortDesc (fun c => distSqBS (getN s c)) final) s (aliveEq_rfl s)
  intro a b ha
  rw [mrp_relayStep]
  by_cases h1 : (getN a b).is_alive = true
  · simp only [if_pos h1]
    cases hpk : mrp_pickRelay a final b (load b * PACKET_SIZE)
        (distSqBS (getN a b))
        (tx_energy (load b * PACKET_SIZE) (distSqBS (getN a b))) with
    | some rId =>
      simp only [hpk]
      exact aliveEq_trans ha
        (aliveEq_trans (aliveEq_chargeN _ _ _)
          (aliveEq_trans (aliveEq_chargeN _ _ _) (aliveEq_chargeN _ _ _)))
    | none =>
      simp only [hpk]
      exact aliveEq_trans ha (aliveEq_chargeN _ _ _)
  · simp only [if_neg h1]; exact ha

theorem mrp_preSweep_alive (draws : ℕ → ℚ) (s : List Node) (idx : ℕ) :
    AliveEq s (mrp_preSweep draws s idx).1 := by
  rw [mrp_preSweep]
  refine aliveEq_trans ?_ (aliveEq_mrp_relayPhase _ _ _)
  refine aliveEq_trans ?_ (aliveEq_mrp_aggPhase _ _ _)
  refine aliveEq_trans ?_ (aliveEq_mrp_memberPhase _ _ _)
  exact aliveEq_trans (aliveEq_clearRoles s) (aliveEq_mrp_markCH _ _)

/-! ## Claim theorems

Batteries marks the `Rat` field operations `@[irreducible]`; the
concrete evaluations below re-enable their definitional unfolding so
that `decide` can run the embedded simulators on concrete inputs. -/

attribute [local semireducible] Rat.add Rat.sub Rat.mul Rat.inv

/-- C1 (counterexample): in the abose protocol the receive-cost
deduction does NOT flag the receiving head dead in the same step, and
the head is charged further aggregation and forwarding costs in the
same round.  Concretely, on `c1_nodes` (member at 4 J-distance units
from a nearly depleted head, a state any long-serving head reaches by
depletion), after the member-transmission loop the head's energy is
`≤ 0` while its alive flag is still `true`, and the subsequent head loop
strictly decreases its energy further. -/
theorem C1_counterexample :
    (let aliveIds := aliveIdsOf c1_nodes
     let e := abose_electPhase c1_draws 1 aliveIds c1_nodes 0
     let s3 := abose_memberPhase aliveIds (abose_assignPhase aliveIds e.2.1 e.1)
     let s4 := abose_chPhase aliveIds e.2.1 s3
     ((getN s3 1).energy ≤ 0 ∧ (getN s3 1).is_alive = true) ∧
     (getN s4 1).energy < (getN s3 1).energy) := by decide

/-- C1 (amended): the death rule is applied only to the node a phase's
own `if node.energy <= 0` check targets.  In the abose member step the
SENDER is flagged dead in the same step exactly when its post-deduction
energy is `≤ 0`, while the RECEIVER's alive flag is left untouched by
the receive-cost deduction (even if that deduction drove it to `≤ 0`);
the head step flags the head only after both of its own deductions.
In mrpgtco and rlbeep, deaths are flagged only by the end-of-round
sweep: each of those rounds is definitionally `deathSweep` applied to
its pre-sweep composite, no phase of the pre-sweep composite changes
any node's alive flag, and the sweep itself flags a node dead exactly
when its energy is `≤ 0` while touching no energy. -/
theorem C1_flagging :
    (∀ (s : List Node) (i h : ℕ),
      (getN s i).is_CH = false → (getN s i).cluster = some h →
      (getN s i).is_alive = true → h ≠ i → hasId s h = true →
      ((getN (abose_memberStep s i) i).energy =
        (getN s i).energy -
          tx_energy PACKET_SIZE (distSq (getN s i) (getN s h)) ∧
      ((getN (abose_memberStep s i) i).is_alive = true ↔
        0 < (getN (abose_memberStep s i) i).energy) ∧
      (getN (abose_memberStep s i) h).is_alive = (getN s h).is_alive ∧
      (getN (abose_memberStep s i) h).energy =
        (getN s h).energy - rx_energy PACKET_SIZE)) ∧
    (∀ (aliveIds : List ℕ) (s : List Node) (c : ℕ),
      (getN s c).is_alive = true →
      ((getN (abose_chStep aliveIds s c) c).is_alive = true ↔
        0 < (getN (abose_chStep aliveIds s c) c).energy)) ∧
    (∀ (draws : ℕ → ℚ) (sqrtFn : ℚ → ℚ) (fuel : ℕ) (s : List Node)
       (idx j : ℕ),
      rl_round draws sqrtFn fuel s idx =
        (deathSweep (rl_preSweep draws sqrtFn fuel s idx).1,
         (rl_preSweep draws sqrtFn fuel s idx).2) ∧
      (getN (rl_preSweep draws sqrtFn fuel s idx).1 j).is_alive =
        (getN s j).is_alive) ∧
    (∀ (draws : ℕ → ℚ) (s : List Node) (idx j : ℕ),
      mrp_round draws s idx =
        (deathSweep (mrp_preSweep draws s idx).1,
         (mrp_preSweep draws s idx).2) ∧
      (getN (mrp_preSweep draws s idx).1 j).is_alive =
        (getN s j).is_alive) ∧
    (∀ (s : List Node) (j : ℕ),
      (getN (deathSweep s) j).is_alive =
        (if (getN s j).energy ≤ 0 then false else (getN s j).is_alive) ∧
      (getN (deathSweep s) j).energy = (getN s j).energy) :=
  ⟨fun _ _ _ h1 h2 h3 h4 h5 => abose_memberStep_eq h1 h2 h3 h4 h5,
   fun aliveIds _ _ h => abose_chStep_flag aliveIds h,
   fun draws sqrtFn fuel s idx j =>
     ⟨rfl, rl_preSweep_alive draws sqrtFn fuel s idx j⟩,
   fun draws s idx j => ⟨rfl, mrp_preSweep_alive draws s idx j⟩,
   fun s j => deathSweep_spec s j⟩

/-- C1 witness: the flagging rules instantiated on the concrete
member-phase entry state of the `c1_nodes` scenario, plus the
sweep-only decomposition of the mrpgtco and rlbeep rounds on the same
population. -/
theorem C1_flagging_witness :
    (let s : List Node :=
      [⟨0, 46, 50, 1/2, true, false, some 1, 0, []⟩,
       ⟨1, 50, 50, 1/10000, true, true, none, 0, []⟩]
     ((getN s 0).is_CH = false ∧ (getN s 0).cluster = some 1 ∧
      (getN s 0).is_alive = true ∧ (1 : ℕ) ≠ 0 ∧ hasId s 1 = true) ∧
     ((getN (abose_memberStep s 0) 0).energy =
        (getN s 0).energy -
          tx_energy PACKET_SIZE (distSq (getN s 0) (getN s 1)) ∧
      ((getN (abose_memberStep s 0) 0).is_alive = true ↔
        0 < (getN (abose_memberStep s 0) 0).energy) ∧
      (getN (abose_memberStep s 0) 1).is_alive = (getN s 1).is_alive ∧
      (getN (abose_memberStep s 0) 1).energy =
        (getN s 1).energy - rx_energy PACKET_SIZE) ∧
     ((getN s 1).is_alive = true →
      ((getN (abose_chStep [0, 1] s 1) 1).is_alive = true ↔
        0 < (getN (abose_chStep [0, 1] s 1) 1).energy)) ∧
     (rl_round (fun _ => 0) (fun q => q) 2 s 0 =
        (deathSweep (rl_preSweep (fun _ => 0) (fun q => q) 2 s 0).1,
         (rl_preSweep (fun _ => 0) (fun q => q) 2 s 0).2) ∧
      (getN (rl_preSweep (fun _ => 0) (fun q => q) 2 s 0).1 1).is_alive =
        (getN s 1).is_alive) ∧
     (mrp_round (fun _ => 0) s 0 =
        (deathSweep (mrp_preSweep (fun _ => 0) s 0).1,
         (mrp_preSweep (fun _ => 0) s 0).2) ∧
      (getN (mrp_preSweep (fun _ => 0) s 0).1 1).is_alive =
        (getN s 1).is_alive) ∧
     ((getN (deathSweep s) 1).is_alive =
        (if (getN s 1).energy ≤ 0 then false else (getN s 1).is_alive) ∧
      (getN (deathSweep s) 1).energy = (getN s 1).energy)) :=
  ⟨⟨by decide, by decide, by decide, by decide, by decide⟩,
   C1_flagging.1 _ 0 1 (by decide) (by decide) (by decide) (by decide)
     (by decide),
   fun h => C1_flagging.2.1 [0, 1] _ 1 h,
   C1_flagging.2.2.1 (fun _ => 0) (fun q => q) 2 _ 0 1,
   C1_flagging.2.2.2.1 (fun _ => 0) _ 0 1,
   C1_flagging.2.2.2.2 _ 1⟩

/-- C2: for every round budget `R`, random stream, abstract square root
and initial population, both the abose and cs_abose runs return series
of length exactly `R` (and the `round` column has length `R`), and once
the alive series hits 0 at some index every later index holds exactly 0
alive nodes and 0 residual energy. -/
theorem C2_series_shape (draws : ℕ → ℚ) (sqrtFn : ℚ → ℚ)
    (nodes : List Node) (R : ℕ) :
    (run_abose_simulation draws nodes R).1.length = R ∧
    (run_abose_simulation draws nodes R).2.length = R ∧
    (run_cs_abose_simulation draws sqrtFn nodes R).1.length = R ∧
    (run_cs_abose_simulation draws sqrtFn nodes R).2.length = R ∧
    (roundsCol R).length = R ∧
    (∀ i j, i ≤ j → (run_abose_simulation draws nodes R).1.getD i 0 = 0 →
      (run_abose_simulation draws nodes R).1.getD j 0 = 0 ∧
      (run_abose_simulation draws nodes R).2.getD j 0 = 0) ∧
    (∀ i j, i ≤ j →
      (run_cs_abose_simulation draws sqrtFn nodes R).1.getD i 0 = 0 →
      (run_cs_abose_simulation draws sqrtFn nodes R).1.getD j 0 = 0 ∧
      (run_cs_abose_simulation draws sqrtFn nodes R).2.getD j 0 = 0) := by
  refine ⟨(abose_loop_length draws R 1 nodes 0).1,
    (abose_loop_length draws R 1 nodes 0).2,
    (cs_loop_length draws sqrtFn R 1 nodes 0).1,
    (cs_loop_length draws sqrtFn R 1 nodes 0).2,
    ?_, ?_, ?_⟩
  · simp [roundsCol]
  · intro i j hij h0
    have hmono := getD_antitone
      (chain_le_getD (abose_loop_chain draws R 1 nodes 0)) i j hij
    have hz : (run_abose_simulation draws nodes R).1.getD j 0 = 0 := by
      rw [run_abose_simulation] at h0 ⊢
      omega
    exact ⟨hz, abose_loop_energy_zero draws R 1 nodes 0 j hz⟩
  · intro i j hij h0
    have hmono := getD_antitone
      (chain_le_getD (cs_loop_chain draws sqrtFn R 1 nodes 0)) i j hij
    have hz : (run_cs_abose_simulation draws sqrtFn nodes R).1.getD j 0 = 0 := by
      rw [run_cs_abose_simulation] at h0 ⊢
      omega
    exact ⟨hz, cs_loop_energy_zero draws sqrtFn R 1 nodes 0 j hz⟩

/-- C2 witness: a two-round budget on the empty population is already
dead at index 0, so index 1 reports exactly 0 alive nodes and 0
residual energy, and all four series have length 2. -/
theorem C2_series_shape_witness :
    (run_abose_simulation (fun _ => 0) [] 2).1.length = 2 ∧
    ((0 : ℕ) ≤ 1 ∧ (run_abose_simulation (fun _ => 0) [] 2).1.getD 0 0 = 0) ∧
    (run_abose_simulation (fun _ => 0) [] 2).1.getD 1 0 = 0 ∧
    (run_abose_simulation (fun _ => 0) [] 2).2.getD 1 0 = 0 ∧
    (run_cs_abose_simulation (fun _ => 0) (fun q => q) [] 2).1.getD 1 0 = 0 :=
  ⟨(C2_series_shape (fun _ => 0) (fun q => q) [] 2).1,
   ⟨by decide, by decide⟩,
   ((C2_series_shape (fun _ => 0) (fun q => q) [] 2).2.2.2.2.2.1 0 1
     (by decide) (by decide)).1,
   ((C2_series_shape (fun _ => 0) (fun q => q) [] 2).2.2.2.2.2.1 0 1
     (by decide) (by decide)).2,
   ((C2_series_shape (fun _ => 0) (fun q => q) [] 2).2.2.2.2.2.2 0 1
     (by decide) (by decide)).1⟩

/-- C3: in any round whose alive snapshot is nonempty, the abose
election (with its fallback) and the mrpgtco two-stage election (with
its fallback) both return a nonempty head list; and when no node
self-elected (no candidate in mrpgtco's case), the returned list is
exactly the singleton of the first alive node of maximal current
energy, which indeed attains the maximum energy among the alive
snapshot. -/
theorem C3_fallback_head (draws : ℕ → ℚ) (round_num : ℕ) (s : List Node)
    (idx : ℕ) (h : aliveIdsOf s ≠ []) :
    ((abose_electPhase draws round_num (aliveIdsOf s) s idx).2.1 ≠ [] ∧
     ((abose_electDraws draws round_num (aliveIdsOf s) s idx).2.1 = [] →
       (abose_electPhase draws round_num (aliveIdsOf s) s idx).2.1 =
         [maxKey (fun i =>
            (getN (abose_electDraws draws round_num (aliveIdsOf s) s idx).1 i).energy)
            (aliveIdsOf s)] ∧
       ∀ i ∈ aliveIdsOf s,
         (getN (abose_electDraws draws round_num (aliveIdsOf s) s idx).1 i).energy ≤
         (getN (abose_electDraws draws round_num (aliveIdsOf s) s idx).1
           (maxKey (fun i =>
             (getN (abose_electDraws draws round_num (aliveIdsOf s) s idx).1 i).energy)
             (aliveIdsOf s))).energy)) ∧
    ((mrp_elect draws (aliveIdsOf s) s idx).1 ≠ [] ∧
     ((mrp_elect draws (aliveIdsOf s) s idx).2.1 = [] →
       (mrp_elect draws (aliveIdsOf s) s idx).1 =
         [maxKey (fun i => (getN s i).energy) (aliveIdsOf s)] ∧
       ∀ i ∈ aliveIdsOf s, (getN s i).energy ≤
         (getN s (maxKey (fun i => (getN s i).energy) (aliveIdsOf s))).energy)) := by
  refine ⟨⟨abose_electPhase_ne_nil draws round_num s idx h, ?_⟩,
    ⟨mrp_elect_ne_nil draws s idx h, ?_⟩⟩
  · intro hc
    exact ⟨abose_electPhase_fallback draws round_num s idx h hc,
      le_maxKey _⟩
  · intro hc
    exact ⟨mrp_elect_fallback draws s idx h hc, le_maxKey _⟩

/-- C3 witness: with a single alive node and a stream that always draws
1, no node self-elects in either protocol and the fallback elects
exactly that node. -/
theorem C3_fallback_head_witness :
    (aliveIdsOf ex1_nodes ≠ [] ∧
     (abose_electDraws (fun _ => 1) 1 (aliveIdsOf ex1_nodes) ex1_nodes 0).2.1 = [] ∧
     (mrp_elect (fun _ => 1) (aliveIdsOf ex1_nodes) ex1_nodes 0).2.1 = []) ∧
    (abose_electPhase (fun _ => 1) 1 (aliveIdsOf ex1_nodes) ex1_nodes 0).2.1 ≠ [] ∧
    (mrp_elect (fun _ => 1) (aliveIdsOf ex1_nodes) ex1_nodes 0).1 =
      [maxKey (fun i => (getN ex1_nodes i).energy) (aliveIdsOf ex1_nodes)] :=
  ⟨⟨by decide, by decide, by decide⟩,
   (C3_fallback_head (fun _ => 1) 1 ex1_nodes 0 (by decide)).1.1,
   ((C3_fallback_head (fun _ => 1) 1 ex1_nodes 0 (by decide)).2.2
     (by decide)).1⟩

/-- C4: the radio model charges `bits * (E_ELEC + E_FS * dist²)` up to
and including the crossover distance (`dsq = DO2` exactly uses the
quadratic branch), `bits * (E_ELEC + E_MP * dist⁴)` strictly beyond it,
and `bits * E_ELEC` per received bit. -/
theorem C4_radio_model (bits : ℕ) (dsq : ℚ) :
    (dsq ≤ DO2 →
      tx_energy bits dsq = (bits : ℚ) * (E_ELEC + E_FS * dsq)) ∧
    (DO2 < dsq →
      tx_energy bits dsq = (bits : ℚ) * (E_ELEC + E_MP * dsq^2)) ∧
    tx_energy bits DO2 = (bits : ℚ) * (E_ELEC + E_FS * DO2) ∧
    rx_energy bits = (bits : ℚ) * E_ELEC := by
  refine ⟨fun hle => ?_, fun hlt => ?_, ?_, rfl⟩
  · rw [tx_energy, if_pos hle]
  · rw [tx_energy, if_neg (not_le_of_lt hlt)]
  · rw [tx_energy, if_pos le_rfl]

/-- C4 witness: the model evaluated on both sides of the crossover. -/
theorem C4_radio_model_witness :
    ((100 : ℚ) ≤ DO2 ∧ DO2 < (10000 : ℚ)) ∧
    tx_energy 4000 100 = (4000 : ℚ) * (E_ELEC + E_FS * 100) ∧
    tx_energy 4000 10000 = (4000 : ℚ) * (E_ELEC + E_MP * 10000^2) ∧
    tx_energy 4000 DO2 = (4000 : ℚ) * (E_ELEC + E_FS * DO2) :=
  ⟨⟨by decide, by decide⟩,
   (C4_radio_model 4000 100).1 (by decide),
   (C4_radio_model 4000 10000).2.1 (by decide),
   (C4_radio_model 4000 DO2).2.2.1⟩

/-- C5 (counterexample): the spec's payload formula
`max(1, floor(m · ratio)) · bits_per_measurement` disagrees with the
code for every cluster size with `floor(m · ratio) = 0`: at `m = 2` the
code forwards the uncompressed `2 · PACKET_SIZE = 8000` bits, not
`max(1, 0) · 64 = 64` bits. -/
theorem C5_counterexample :
    cs_total_bits 2 = 8000 ∧ spec_payload_bits 2 = 64 ∧
    cs_total_bits 2 ≠ spec_payload_bits 2 := by decide

/-- C5 (amended): a cs_abose head with `m ≥ 1` members pays the full
aggregation cost `m · PACKET_SIZE · E_DA` and forwards
`floor(m · CS_RATIO) · BITS_PER_MEASUREMENT` bits when the compressed
component count `floor(m · CS_RATIO)` is at least 1, falling back to the
uncompressed `m · PACKET_SIZE` bits when it is zero; in particular
`m = 4` forwards exactly one compressed unit of `BITS_PER_MEASUREMENT`
bits. -/
theorem C5_compressed_payload :
    (∀ m : ℕ,
      ((((m : ℚ) * CS_RATIO).floor).toNat = 0 → 0 < m →
        cs_total_bits m = m * PACKET_SIZE) ∧
      (1 ≤ (((m : ℚ) * CS_RATIO).floor).toNat →
        cs_total_bits m =
          (((m : ℚ) * CS_RATIO).floor).toNat * BITS_PER_MEASUREMENT)) ∧
    cs_total_bits 4 = 1 * BITS_PER_MEASUREMENT ∧
    (∀ (aliveIds : List ℕ) (s : List Node) (c m : ℕ),
      (getN s c).is_alive = true →
      (aliveIds.filter (fun i => (getN s i).cluster = some c)).length = m →
      0 < m →
      (getN (cs_chStep aliveIds s c) c).energy =
        (getN s c).energy - ((m * PACKET_SIZE : ℕ) * E_DA) -
        tx_energy (cs_total_bits m) (distSqBS (getN s c))) := by
  refine ⟨fun m => ⟨fun hz hm => ?_, fun h1 => ?_⟩, by decide,
    fun aliveIds s c m h1 h2 h3 => cs_chStep_energy aliveIds h1 h2 h3⟩
  · simp only [cs_total_bits]
    rw [if_pos (And.intro hz hm)]
  · simp only [cs_total_bits]
    have hz : ¬ ((((m : ℚ) * CS_RATIO).floor).toNat = 0 ∧ 0 < m) := by
      intro hc
      omega
    rw [if_neg hz]

/-- C5 witness: the payload rules at `m = 2` (fallback), `m = 8`
(compressed) and the head energy deduction on a concrete two-node
cluster state. -/
theorem C5_compressed_payload_witness :
    (let s : List Node :=
      [⟨0, 40, 50, 1/2, true, false, some 1, 0, []⟩,
       ⟨1, 50, 50, 1/2, true, true, none, 0, []⟩]
     ((((2 : ℕ) : ℚ) * CS_RATIO).floor.toNat = 0 ∧ (0 : ℕ) < 2 ∧
      1 ≤ (((8 : ℕ) : ℚ) * CS_RATIO).floor.toNat ∧
      (getN s 1).is_alive = true ∧
      (([0, 1] : List ℕ).filter
        (fun i => (getN s i).cluster = some 1)).length = 1 ∧ (0 : ℕ) < 1) ∧
     cs_total_bits 2 = 2 * PACKET_SIZE ∧
     cs_total_bits 8 = (((8 : ℕ) : ℚ) * CS_RATIO).floor.toNat *
       BITS_PER_MEASUREMENT ∧
     (getN (cs_chStep [0, 1] s 1) 1).energy =
       (getN s 1).energy - ((1 * PACKET_SIZE : ℕ) * E_DA) -
       tx_energy (cs_total_bits 1) (distSqBS (getN s 1))) :=
  ⟨⟨by decide, by decide, by decide, by decide, by decide, by decide⟩,
   (C5_compressed_payload.1 2).1 (by decide) (by decide),
   (C5_compressed_payload.1 8).2 (by decide),
   C5_compressed_payload.2.2 [0, 1] _ 1 1 (by decide) (by decide) (by decide)⟩

/-- C6: whenever the mrpgtco relay search of an alive head `c` picks a
relay `r` (for the head's payload of `load c` packets), that relay is
alive, distinct from `c`, strictly closer to the base station than `c`'s
direct distance, within twice the crossover distance of `c`, and its
transmit cost strictly undercuts the direct cost; and executing the
forwarding step immediately charges the relay exactly the receive cost
plus its own DIRECT transmit cost to the base station (single-step
relay: the forwarded payload is never relayed again). -/
theorem C6_relay_rules (s : List Node) (final : List ℕ) (load : ℕ → ℕ)
    (c r : ℕ) (hal : (getN s c).is_alive = true)
    (hpick : mrp_pickRelay s final c (load c * PACKET_SIZE)
      (distSqBS (getN s c))
      (tx_energy (load c * PACKET_SIZE) (distSqBS (getN s c))) = some r) :
    ((getN s r).is_alive = true ∧ r ≠ c ∧
     distSqBS (getN s r) < distSqBS (getN s c) ∧
     distSq (getN s c) (getN s r) < 2^2 * DO2 ∧
     tx_energy (load c * PACKET_SIZE) (distSq (getN s c) (getN s r)) <
       tx_energy (load c * PACKET_SIZE) (distSqBS (getN s c))) ∧
    (getN (mrp_relayStep final load s c) r).energy =
      (getN s r).energy - rx_energy (load c * PACKET_SIZE) -
      tx_energy (load c * PACKET_SIZE) (distSqBS (getN s r)) :=
  ⟨mrp_pickRelay_spec hpick, mrp_relayStep_relay hal hpick⟩

/-- C6 witness: on `c6_nodes` the head at `(0, 50)` relays through the
head at `(10, 50)`, which pays receive plus direct-forward cost. -/
theorem C6_relay_rules_witness :
    ((getN c6_nodes 0).is_alive = true ∧
     mrp_pickRelay c6_nodes [0, 1] 0 ((fun _ => 1) 0 * PACKET_SIZE)
       (distSqBS (getN c6_nodes 0))
       (tx_energy ((fun _ => 1) 0 * PACKET_SIZE)
         (distSqBS (getN c6_nodes 0))) = some 1) ∧
    distSqBS (getN c6_nodes 1) < distSqBS (getN c6_nodes 0) ∧
    (getN (mrp_relayStep [0, 1] (fun _ => 1) c6_nodes 0) 1).energy =
      (getN c6_nodes 1).energy - rx_energy ((fun _ => 1) 0 * PACKET_SIZE) -
      tx_energy ((fun _ => 1) 0 * PACKET_SIZE) (distSqBS (getN c6_nodes 1)) :=
  ⟨⟨by decide, by decide⟩,
   (C6_relay_rules c6_nodes [0, 1] (fun _ => 1) 0 1 (by decide)
     (by decide)).1.2.2.1,
   (C6_relay_rules c6_nodes [0, 1] (fun _ => 1) 0 1 (by decide)
     (by decide)).2⟩

/-- C7: under the module's geometry (every node inside the `[0,100]²`
square, base station at its center) every head is already within the
crossover distance of the base station, so the rlbeep hop chain
terminates immediately — `routeChain` performs zero hops for every fuel
bound and leaves state and draw index untouched — and the head then
transmits its whole aggregated payload directly to the base station,
paying exactly the aggregation cost plus the direct transmit cost. -/
theorem C7_route_terminates (draws : ℕ → ℚ) (sqrtFn : ℚ → ℚ)
    (chs : List ℕ) (bits fuel cur idx : ℕ) (s : List Node)
    (hsq : InSquare s) :
    routeChain draws sqrtFn chs bits fuel cur s idx = (cur, s, idx) ∧
    (∀ (load : ℕ → ℕ) (c : ℕ), (getN s c).is_alive = true →
      (rl_chStep draws sqrtFn chs load fuel (s, idx) c).2 = idx ∧
      (getN (rl_chStep draws sqrtFn chs load fuel (s, idx) c).1 c).energy =
        (getN s c).energy - ((load c * PACKET_SIZE : ℕ) * E_DA) -
        tx_energy ((load c + 1) * PACKET_SIZE) (distSqBS (getN s c))) :=
  ⟨routeChain_id draws sqrtFn chs bits hsq fuel cur idx,
   fun load c hal => rl_chStep_direct draws sqrtFn chs load fuel idx hsq hal⟩

/-- C7 witness: the chain on the concrete two-head in-square state stops
at once and the head is charged the direct cost. -/
theorem C7_route_terminates_witness :
    (InSquare rl_nodes ∧ (getN rl_nodes 0).is_alive = true) ∧
    routeChain (fun _ => 0) (fun q => q) [0, 1] 8000 7 0 rl_nodes 3 =
      (0, rl_nodes, 3) ∧
    (getN (rl_chStep (fun _ => 0) (fun q => q) [0, 1] (fun _ => 1) 7
        (rl_nodes, 3) 0).1 0).energy =
      (getN rl_nodes 0).energy - ((1 * PACKET_SIZE : ℕ) * E_DA) -
      tx_energy ((1 + 1) * PACKET_SIZE) (distSqBS (getN rl_nodes 0)) :=
  ⟨⟨by decide, by decide⟩,
   (C7_route_terminates (fun _ => 0) (fun q => q) [0, 1] 8000 7 0 3 rl_nodes
     (by decide)).1,
   ((C7_route_terminates (fun _ => 0) (fun q => q) [0, 1] 8000 7 0 3 rl_nodes
     (by decide)).2 (fun _ => 1) 0 (by decide)).2⟩

/-- C8 (counterexample): abose does NOT clear cluster assignments at the
start of a round.  On `c8_nodes` with `c8_draws`, in round 2 node 0 is
elected head while still carrying its round-1 assignment to head 1, and
head 1's member count (2) therefore includes the stale assignment even
though only one node (node 2) was freshly assigned to it this round. -/
theorem C8_counterexample :
    (let s1 := (abose_round c8_draws 1 c8_nodes 0).1
     let idx1 := (abose_round c8_draws 1 c8_nodes 0).2
     let aliveIds := aliveIdsOf s1
     let e2 := abose_electPhase c8_draws 2 aliveIds s1 idx1
     let s3 := abose_memberPhase aliveIds (abose_assignPhase aliveIds e2.2.1 e2.1)
     ((getN e2.1 0).is_CH = true ∧ (getN e2.1 0).cluster = some 1) ∧
     abose_memberCount aliveIds s3 1 = 2 ∧
     (aliveIds.filter (fun i => (getN s3 i).cluster = some 1 ∧
       (getN s3 i).is_CH = false)).length = 1) := by decide

/-- C8 (amended): cs_abose clears both the role and the cluster
assignment of every alive node during its election loop (so every alive
node leaves the election with `cluster = none`), and mrpgtco and rlbeep
clear both fields of EVERY node at round start via their shared reset
loop; abose alone clears only the role, leaving stale cluster
assignments to influence member counts (see the counterexample). -/
theorem C8_round_reset (draws : ℕ → ℚ) (sqrtFn : ℚ → ℚ) (round_num : ℕ)
    (s : List Node) (idx : ℕ) :
    (∀ n ∈ (cs_electPhase draws sqrtFn round_num (aliveIdsOf s) s idx).1,
      n.is_alive = true → n.cluster = none) ∧
    (∀ n ∈ clearRoles s, n.is_CH = false ∧ n.cluster = none) := by
  constructor
  · intro n hn halive
    obtain ⟨m, hm, hstep⟩ := evolves_mem_right
      (evolves_cs_electPhase draws sqrtFn round_num (aliveIdsOf s) s idx) n hn
    have hmal : m.is_alive = true := hstep.2.2.2 halive
    have hmem : m.id ∈ aliveIdsOf s := by
      simp only [aliveIdsOf, List.mem_map, List.mem_filter]
      exact ⟨m, ⟨hm, hmal⟩, rfl⟩
    exact cs_electPhase_clust draws sqrtFn round_num (aliveIdsOf s) s idx
      m.id hmem n hn hstep.1
  · intro n hn
    rcases List.mem_map.mp hn with ⟨m, _, rfl⟩
    exact ⟨rfl, rfl⟩

/-- C8 witness: the reset rules on a node that entered the round with a
stale head assignment. -/
theorem C8_round_reset_witness :
    (getN stale_elect 0 ∈ stale_elect ∧
     (getN stale_elect 0).is_alive = true ∧
     getN (clearRoles stale_nodes) 0 ∈ clearRoles stale_nodes) ∧
    (getN stale_elect 0).cluster = none ∧
    ((getN (clearRoles stale_nodes) 0).is_CH = false ∧
     (getN (clearRoles stale_nodes) 0).cluster = none) :=
  ⟨⟨by decide, by decide, by decide⟩,
   (C8_round_reset (fun _ => 1) (fun q => q) 1 stale_nodes 0).1
     (getN stale_elect 0) (by decide) (by decide),
   (C8_round_reset (fun _ => 1) (fun q => q) 1 stale_nodes 0).2
     (getN (clearRoles stale_nodes) 0) (by decide)⟩

/-- C9: in both the abose and the rlbeep runs, each entry of the
reported alive-node series is at most its predecessor (reading past the
end as 0, which also covers the zero padding): dead nodes are never
resurrected, so the population can only shrink, and the padding after
network death preserves the monotonicity. -/
theorem C9_alive_monotone (draws : ℕ → ℚ) (sqrtFn : ℚ → ℚ) (fuel : ℕ)
    (nodes : List Node) (R i : ℕ) :
    (run_abose_simulation draws nodes R).1.getD (i + 1) 0 ≤
      (run_abose_simulation draws nodes R).1.getD i 0 ∧
    (run_rlbeep_simulation draws sqrtFn fuel nodes R).getD (i + 1) 0 ≤
      (run_rlbeep_simulation draws sqrtFn fuel nodes R).getD i 0 :=
  ⟨chain_le_getD (abose_loop_chain draws R 1 nodes 0) i,
   chain_le_getD (rl_loop_chain draws sqrtFn fuel R nodes 0) i⟩

/-- C10: under the module's constants every node's squared distance to
the centered base station is at most `5000 < DO2 = E_FS/E_MP`, so the
rlbeep routing loop body is unreachable: across any number of rounds of
the run the learned value table of every node stays empty, positions
stay inside the square, and every `routeChain` call returns with zero
hops, consuming no draw and leaving the state untouched (every head
therefore transmits directly, see C7's direct-cost equation). -/
theorem C10_qtable_empty (draws : ℕ → ℚ) (sqrtFn : ℚ → ℚ)
    (fuel k : ℕ) (s : List Node) (idx : ℕ)
    (hsq : InSquare s) (hq : QEmpty s) :
    (QEmpty (rl_iter draws sqrtFn fuel k s idx).1 ∧
     InSquare (rl_iter draws sqrtFn fuel k s idx).1) ∧
    (∀ (chs : List ℕ) (bits cur : ℕ),
      routeChain draws sqrtFn chs bits fuel cur s idx = (cur, s, idx)) :=
  ⟨⟨(rl_iter_pres draws sqrtFn fuel k idx hsq hq).2,
    (rl_iter_pres draws sqrtFn fuel k idx hsq hq).1⟩,
   fun chs bits cur => routeChain_id draws sqrtFn chs bits hsq fuel cur idx⟩

/-- C10 witness: two rounds of the rlbeep evolution on the concrete
in-square population leave every q_table empty. -/
theorem C10_qtable_empty_witness :
    (InSquare rl_nodes ∧ QEmpty rl_nodes) ∧
    QEmpty (rl_iter (fun _ => 0) (fun q => q) 5 2 rl_nodes 0).1 ∧
    routeChain (fun _ => 0) (fun q => q) [0, 1] 4000 5 1 rl_nodes 0 =
      (1, rl_nodes, 0) :=
  ⟨⟨by decide, by decide⟩,
   (C10_qtable_empty (fun _ => 0) (fun q => q) 5 2 rl_nodes 0 (by decide)
     (by decide)).1.1,
   (C10_qtable_empty (fun _ => 0) (fun q => q) 5 2 rl_nodes 0 (by decide)
     (by decide)).2 [0, 1] 4000 1⟩

end WSN
